import Mathlib

/-!
Verification of the x402 SDK (stablecoinxyz/x402-sdk).

This file gives a shallow embedding, in Lean 4, of the pure/algorithmic core
of the SDK: the network registry (`src/core/networks.ts`), the retry executor
(`src/core/retry.ts`), the facilitator client error paths
(`src/core/facilitator.ts`), the requirement selector and decimal-to-atomic
conversion (`src/evm/client.ts`, `src/solana/client.ts`), the payload builder
dispatch (`src/evm/client.ts`), the Express gate handler
(`src/middleware/express.ts`), the base64 header helpers, and the Solana
chain-native signing/local-verification pair (`src/solana/signing.ts`).

JavaScript strings are modelled as Lean `String`s (sequences of Unicode scalar
values); byte arrays as `List Nat` with entries `< 256`; `bigint` and `number`
values that are used as non-negative integers as `Nat`.  Asynchronous
operations (fetch, signer calls) are modelled by passing their outcomes as
explicit oracle arguments; a thrown JS exception is modelled with
`Except`/`Option`.  External libraries (`tweetnacl`) are modelled as an
abstract structure carrying the algebraic laws of Ed25519 signatures, while
`bs58` and the base64 helpers are implemented concretely.
-/

set_option linter.unusedVariables false
set_option linter.unnecessarySimpa false

namespace X402

/-! ### Generic list/string utilities (models of JS string primitives) -/

/-- Model of checking that `pre` occurs at the start of `l`. -/
def isPrefixL : List Char → List Char → Bool
  | [], _ => true
  | _ :: _, [] => false
  | a :: as, b :: bs => a = b && isPrefixL as bs

/-- Model of substring search: does `needle` occur contiguously in `hay`? -/
def containsSub (hay needle : List Char) : Bool :=
  match hay with
  | [] => isPrefixL needle []
  | _ :: rest => isPrefixL needle hay || containsSub rest needle

/-- Model of JavaScript `String.prototype.includes` (case-sensitive substring test). -/
def jsIncludes (s sub : String) : Bool :=
  containsSub s.data sub.data

/-- Model of JavaScript `String.prototype.split` with a single-character
separator, at the character-list level; always returns a non-empty list. -/
def splitOnCharL (sep : Char) : List Char → List (List Char)
  | [] => [[]]
  | c :: cs =>
    if c = sep then [] :: splitOnCharL sep cs
    else
      match splitOnCharL sep cs with
      | [] => [[c]]
      | p :: ps => (c :: p) :: ps

theorem splitOnCharL_ne_nil (sep : Char) (l : List Char) : splitOnCharL sep l ≠ [] := by
  induction l with
  | nil => simp [splitOnCharL]
  | cons c cs ih =>
    simp only [splitOnCharL]
    split
    · simp
    · cases h : splitOnCharL sep cs with
      | nil => simp
      | cons p ps => simp

theorem splitOnCharL_not_mem (sep : Char) (l : List Char) (h : sep ∉ l) :
    splitOnCharL sep l = [l] := by
  induction l with
  | nil => rfl
  | cons c cs ih =>
    simp only [List.mem_cons, not_or] at h
    have hcs : ¬(c = sep) := fun hc => h.1 hc.symm
    simp only [splitOnCharL, if_neg hcs, ih h.2]

/-- `splitOnCharL` on `i ++ sep :: f` with no separator in `i` yields `i`
followed by the split of `f`. -/
theorem splitOnCharL_append (sep : Char) (i f : List Char) (h : sep ∉ i) :
    splitOnCharL sep (i ++ sep :: f) = i :: splitOnCharL sep f := by
  induction i with
  | nil => simp [splitOnCharL]
  | cons c cs ih =>
    simp only [List.mem_cons, not_or] at h
    have hcs : ¬(c = sep) := fun hc => h.1 hc.symm
    simp only [List.cons_append, splitOnCharL, if_neg hcs, List.append_eq]
    rw [ih h.2]

/-- Numeric value of a decimal digit character (model of `charCode - 48`). -/
def digitVal (c : Char) : Nat := c.toNat - 48

/-- Model of `BigInt(s)` on strings of decimal digits: left fold
`acc * 10 + digit`. -/
def decValL (l : List Char) : Nat :=
  l.foldl (fun acc c => acc * 10 + digitVal c) 0

/-- Model of `BigInt(s)` on a `String` of decimal digits. -/
def decVal (s : String) : Nat := decValL s.data

theorem decValL_aux (l : List Char) : ∀ acc : Nat,
    l.foldl (fun acc c => acc * 10 + digitVal c) acc =
      acc * 10 ^ l.length + decValL l := by
  induction l with
  | nil => intro acc; simp [decValL]
  | cons c cs ih =>
    intro acc
    have h1 : (c :: cs).foldl (fun acc c => acc * 10 + digitVal c) acc =
        cs.foldl (fun acc c => acc * 10 + digitVal c) (acc * 10 + digitVal c) := rfl
    have h2 : decValL (c :: cs) =
        cs.foldl (fun acc c => acc * 10 + digitVal c) (0 * 10 + digitVal c) := rfl
    rw [h1, ih, h2, ih, List.length_cons]
    ring

theorem decValL_append (a b : List Char) :
    decValL (a ++ b) = decValL a * 10 ^ b.length + decValL b := by
  simp only [decValL, List.foldl_append]
  rw [decValL_aux b (List.foldl (fun acc c => acc * 10 + digitVal c) 0 a)]
  rfl

theorem decValL_zeros (z : List Char) (hz : ∀ c ∈ z, c = '0') :
    decValL z = 0 := by
  induction z with
  | nil => rfl
  | cons c cs ih =>
    have hc : c = '0' := hz c (List.mem_cons_self _ _)
    have h1 : decValL (c :: cs) =
        cs.foldl (fun acc c => acc * 10 + digitVal c) (0 * 10 + digitVal c) := rfl
    have hc0 : (0 : Nat) * 10 + digitVal c = 0 := by
      subst hc; rfl
    rw [h1, hc0]
    exact ih fun d hd => hz d (List.mem_cons_of_mem _ hd)

/-! ### Positional digit machinery (shared by base64/base58/decimal models)

`natToDigitsF b fuel n` computes the little-endian base-`b` digits of `n`
using explicit fuel so that everything is structurally recursive and reduces
by `decide`/`rfl`. -/

def natToDigitsF (b : Nat) : Nat → Nat → List Nat
  | 0, _ => []
  | fuel + 1, n => if n = 0 then [] else n % b :: natToDigitsF b fuel (n / b)

/-- Little-endian value of a digit list. -/
def fromDigitsLE (b : Nat) : List Nat → Nat
  | [] => 0
  | d :: l => d + b * fromDigitsLE b l

theorem fromDigitsLE_eq_zero (b : Nat) (hb : 2 ≤ b) (l : List Nat)
    (h : fromDigitsLE b l = 0) : ∀ d ∈ l, d = 0 := by
  induction l with
  | nil => simp
  | cons d l ih =>
    simp only [fromDigitsLE] at h
    have hd : d = 0 ∧ b * fromDigitsLE b l = 0 := Nat.add_eq_zero.mp h
    have hl : fromDigitsLE b l = 0 := by
      rcases Nat.mul_eq_zero.mp hd.2 with h1 | h1
      · omega
      · exact h1
    intro x hx
    rcases List.mem_cons.mp hx with rfl | hx
    · exact hd.1
    · exact ih hl x hx

/-- The fuel-based digit function is a left inverse of `fromDigitsLE` on digit
lists with no trailing zero digit. -/
theorem natToDigitsF_fromDigitsLE (b : Nat) (hb : 2 ≤ b) :
    ∀ (l : List Nat), (∀ d ∈ l, d < b) → (l = [] ∨ l.getLast? ≠ some 0) →
      ∀ fuel, fromDigitsLE b l ≤ fuel → natToDigitsF b fuel (fromDigitsLE b l) = l := by
  intro l
  induction l with
  | nil =>
    intro _ _ fuel _
    cases fuel <;> simp [natToDigitsF, fromDigitsLE]
  | cons d rest ih =>
    intro hdig hlast fuel hfuel
    have hpos : fromDigitsLE b (d :: rest) ≠ 0 := by
      intro h0
      have hall := fromDigitsLE_eq_zero b hb _ h0
      rcases hlast with h | h
      · exact absurd h (by simp)
      · apply h
        have : (d :: rest).getLast (by simp) = 0 :=
          hall _ (List.getLast_mem _)
        rw [List.getLast?_eq_getLast _ (by simp), this]
    obtain ⟨f, rfl⟩ : ∃ f, fuel = f + 1 := by
      cases fuel
      · exact absurd (Nat.le_zero.mp hfuel) hpos
      · exact ⟨_, rfl⟩
    have hd : d < b := hdig d (List.mem_cons_self _ _)
    have hval : fromDigitsLE b (d :: rest) = d + b * fromDigitsLE b rest := rfl
    have hmod : fromDigitsLE b (d :: rest) % b = d := by
      rw [hval, Nat.add_mul_mod_self_left, Nat.mod_eq_of_lt hd]
    have hdiv : fromDigitsLE b (d :: rest) / b = fromDigitsLE b rest := by
      rw [hval, Nat.add_mul_div_left _ _ (by omega), Nat.div_eq_of_lt hd]
      omega
    simp only [natToDigitsF, if_neg hpos, hmod, hdiv]
    congr 1
    apply ih
    · exact fun x hx => hdig x (List.mem_cons_of_mem _ hx)
    · rcases rest with _ | ⟨r, rs⟩
      · exact Or.inl rfl
      · right
        intro hz
        rcases hlast with h | h
        · exact absurd h (by simp)
        · exact h (by rwa [List.getLast?_cons_cons])
    · -- fromDigitsLE b rest ≤ f
      have h1 : d + b * fromDigitsLE b rest ≤ f + 1 := hval ▸ hfuel
      have h2 : 2 * fromDigitsLE b rest ≤ b * fromDigitsLE b rest :=
        Nat.mul_le_mul_right _ hb
      omega

theorem natToDigitsF_lt (b : Nat) (hb : 2 ≤ b) :
    ∀ fuel n, ∀ d ∈ natToDigitsF b fuel n, d < b := by
  intro fuel
  induction fuel with
  | zero => simp [natToDigitsF]
  | succ f ih =>
    intro n d hd
    simp only [natToDigitsF] at hd
    split at hd
    · simp at hd
    · rcases List.mem_cons.mp hd with rfl | hd
      · exact Nat.mod_lt _ (by omega)
      · exact ih _ _ hd

/-- Correctness of the fuel-based digits: enough fuel recovers the value. -/
theorem fromDigitsLE_natToDigitsF (b : Nat) (hb : 2 ≤ b) :
    ∀ fuel n, n ≤ fuel → fromDigitsLE b (natToDigitsF b fuel n) = n := by
  intro fuel
  induction fuel with
  | zero => intro n h; interval_cases n; simp [natToDigitsF, fromDigitsLE]
  | succ f ih =>
    intro n h
    by_cases hn : n = 0
    · simp [natToDigitsF, hn, fromDigitsLE]
    · have hrec : n / b ≤ f := by
        have h1 : n / b < n := Nat.div_lt_self (by omega) (by omega)
        omega
      simp only [natToDigitsF, if_neg hn, fromDigitsLE, ih _ hrec]
      exact Nat.mod_add_div n b

/-- The last digit produced for a positive number is non-zero. -/
theorem natToDigitsF_getLast (b : Nat) (hb : 2 ≤ b) :
    ∀ fuel n, n ≠ 0 → n ≤ fuel → (natToDigitsF b fuel n).getLast? ≠ some 0 := by
  intro fuel
  induction fuel with
  | zero => intro n hn h; omega
  | succ f ih =>
    intro n hn h
    simp only [natToDigitsF, if_neg hn]
    by_cases hq : n / b = 0
    · have hnil : natToDigitsF b f (n / b) = [] := by
        cases f <;> simp [natToDigitsF, hq]
      rw [hnil]
      simp only [List.getLast?_singleton, ne_eq, Option.some.injEq]
      have hmd := Nat.mod_add_div n b
      rw [hq, Nat.mul_zero] at hmd
      omega
    · have h1 : n / b < n := Nat.div_lt_self (Nat.pos_of_ne_zero hn) (by omega)
      have hrec : n / b ≤ f := by omega
      have htail := ih (n / b) hq hrec
      rcases hcons : natToDigitsF b f (n / b) with _ | ⟨r, rs⟩
      · exfalso
        have hval := fromDigitsLE_natToDigitsF b hb f (n / b) hrec
        rw [hcons] at hval
        exact hq (by simpa [fromDigitsLE] using hval.symm)
      · rw [hcons] at htail
        rw [List.getLast?_cons_cons]
        exact htail

/-! ### UTF-8 (model of `Buffer.from(str)` / `TextEncoder.encode`)

`toBase64`/`fromBase64` and the Solana message signing first turn the string
into its UTF-8 bytes; we implement the standard UTF-8 encoding of Unicode
scalar values.  Decoding uses explicit fuel so that it is structurally
recursive (and hence evaluates by `decide`). -/

/-- UTF-8 encoding of a single Unicode scalar value, as a function of the
code point. -/
def utf8EncodeCharN (n : Nat) : List Nat :=
  if n < 0x80 then [n]
  else if n < 0x800 then [0xC0 + n / 64, 0x80 + n % 64]
  else if n < 0x10000 then [0xE0 + n / 4096, 0x80 + n / 64 % 64, 0x80 + n % 64]
  else [0xF0 + n / 262144, 0x80 + n / 4096 % 64, 0x80 + n / 64 % 64, 0x80 + n % 64]

/-- UTF-8 encoding of a single character. -/
def utf8EncodeChar (c : Char) : List Nat :=
  utf8EncodeCharN c.toNat

/-- UTF-8 encoding of a character list. -/
def utf8EncodeL : List Char → List Nat
  | [] => []
  | c :: cs => utf8EncodeChar c ++ utf8EncodeL cs

/-- UTF-8 encoding of a string (model of `Buffer.from(str)` /
`new TextEncoder().encode(str)`). -/
def utf8Encode (s : String) : List Nat :=
  utf8EncodeL s.data

/-- Is `b` a UTF-8 continuation byte? -/
def isCont (b : Nat) : Prop := 0x80 ≤ b ∧ b < 0xC0

instance (b : Nat) : Decidable (isCont b) := by unfold isCont; infer_instance

/-- Decode one UTF-8 scalar value from a leading byte and the remaining
bytes; returns the code point and the bytes that follow it. -/
def utf8DecodeOne (b0 : Nat) (rest : List Nat) : Option (Nat × List Nat) :=
  if b0 < 0x80 then some (b0, rest)
  else if b0 < 0xC0 then none
  else if b0 < 0xE0 then
    match rest with
    | b1 :: rest1 =>
      if isCont b1 then some ((b0 - 0xC0) * 64 + (b1 - 0x80), rest1) else none
    | [] => none
  else if b0 < 0xF0 then
    match rest with
    | b1 :: b2 :: rest2 =>
      if isCont b1 ∧ isCont b2 then
        some ((b0 - 0xE0) * 4096 + (b1 - 0x80) * 64 + (b2 - 0x80), rest2)
      else none
    | _ => none
  else if b0 < 0xF8 then
    match rest with
    | b1 :: b2 :: b3 :: rest3 =>
      if isCont b1 ∧ isCont b2 ∧ isCont b3 then
        some ((b0 - 0xF0) * 262144 + (b1 - 0x80) * 4096 + (b2 - 0x80) * 64 +
          (b3 - 0x80), rest3)
      else none
    | _ => none
  else none

/-- Fuel-based UTF-8 decoder; malformed input yields `none`. -/
def utf8DecodeF : Nat → List Nat → Option (List Char)
  | _, [] => some []
  | 0, _ :: _ => none
  | fuel + 1, b0 :: rest =>
    match utf8DecodeOne b0 rest with
    | some (n, rest1) => (utf8DecodeF fuel rest1).map (fun cs => Char.ofNat n :: cs)
    | none => none

/-- UTF-8 decoding of a byte list (model of `Buffer.toString("utf-8")` on
well-formed input). -/
def utf8Decode (bs : List Nat) : Option String :=
  (utf8DecodeF bs.length bs).map String.mk

theorem char_toNat_lt (c : Char) : c.toNat < 0x110000 := by
  rcases c.valid with h | ⟨_, h⟩
  · have h1 : c.toNat < 0xD800 := h
    omega
  · exact h

/-- `utf8DecodeOne` inverts `utf8EncodeCharN`. -/
theorem utf8DecodeOne_encode (n : Nat) (hv : n < 0x110000) (rest : List Nat) :
    ∃ b0 tl, utf8EncodeCharN n = b0 :: tl ∧
      utf8DecodeOne b0 (tl ++ rest) = some (n, rest) := by
  by_cases h1 : n < 0x80
  · refine ⟨n, [], by rw [utf8EncodeCharN, if_pos h1], ?_⟩
    simp only [List.nil_append, utf8DecodeOne, if_pos h1]
  · by_cases h2 : n < 0x800
    · refine ⟨0xC0 + n / 64, [0x80 + n % 64],
        by rw [utf8EncodeCharN, if_neg h1, if_pos h2], ?_⟩
      have c1 : ¬(0xC0 + n / 64 < 0x80) := by omega
      have c2 : ¬(0xC0 + n / 64 < 0xC0) := by omega
      have c3 : 0xC0 + n / 64 < 0xE0 := by omega
      have m1 := Nat.mod_lt n (y := 64) (by omega)
      have c4 : isCont (0x80 + n % 64) := ⟨by omega, by omega⟩
      rw [List.singleton_append]
      simp only [utf8DecodeOne, if_neg c1, if_neg c2, if_pos c3, if_pos c4]
      have harith : (0xC0 + n / 64 - 0xC0) * 64 + (0x80 + n % 64 - 0x80) = n := by
        have := Nat.div_add_mod n 64
        omega
      rw [harith]
    · by_cases h3 : n < 0x10000
      · refine ⟨0xE0 + n / 4096, [0x80 + n / 64 % 64, 0x80 + n % 64],
          by rw [utf8EncodeCharN, if_neg h1, if_neg h2, if_pos h3], ?_⟩
        have c1 : ¬(0xE0 + n / 4096 < 0x80) := by omega
        have c2 : ¬(0xE0 + n / 4096 < 0xC0) := by omega
        have c3 : ¬(0xE0 + n / 4096 < 0xE0) := by omega
        have c4 : 0xE0 + n / 4096 < 0xF0 := by
          have : n / 4096 < 16 := by omega
          omega
        have m1 := Nat.mod_lt (n / 64) (y := 64) (by omega)
        have m2 := Nat.mod_lt n (y := 64) (by omega)
        have c5 : isCont (0x80 + n / 64 % 64) ∧ isCont (0x80 + n % 64) :=
          ⟨⟨by omega, by omega⟩, ⟨by omega, by omega⟩⟩
        rw [List.cons_append, List.singleton_append]
        simp only [utf8DecodeOne, if_neg c1, if_neg c2, if_neg c3, if_pos c4,
          if_pos c5]
        have hd1 : n / 64 / 64 = n / 4096 := by rw [Nat.div_div_eq_div_mul]
        have hs1 := Nat.div_add_mod n 64
        have hs2 := Nat.div_add_mod (n / 64) 64
        rw [hd1] at hs2
        have harith : (0xE0 + n / 4096 - 0xE0) * 4096 +
            (0x80 + n / 64 % 64 - 0x80) * 64 + (0x80 + n % 64 - 0x80) = n := by
          omega
        rw [harith]
      · refine ⟨0xF0 + n / 262144,
          [0x80 + n / 4096 % 64, 0x80 + n / 64 % 64, 0x80 + n % 64],
          by rw [utf8EncodeCharN, if_neg h1, if_neg h2, if_neg h3], ?_⟩
        have c1 : ¬(0xF0 + n / 262144 < 0x80) := by omega
        have c2 : ¬(0xF0 + n / 262144 < 0xC0) := by omega
        have c3 : ¬(0xF0 + n / 262144 < 0xE0) := by omega
        have c4 : ¬(0xF0 + n / 262144 < 0xF0) := by omega
        have c5 : 0xF0 + n / 262144 < 0xF8 := by
          have : n / 262144 < 5 := by omega
          omega
        have m1 := Nat.mod_lt (n / 4096) (y := 64) (by omega)
        have m2 := Nat.mod_lt (n / 64) (y := 64) (by omega)
        have m3 := Nat.mod_lt n (y := 64) (by omega)
        have c6 : isCont (0x80 + n / 4096 % 64) ∧ isCont (0x80 + n / 64 % 64) ∧
            isCont (0x80 + n % 64) :=
          ⟨⟨by omega, by omega⟩, ⟨by omega, by omega⟩, ⟨by omega, by omega⟩⟩
        rw [List.cons_append, List.cons_append, List.singleton_append]
        simp only [utf8DecodeOne, if_neg c1, if_neg c2, if_neg c3, if_neg c4,
          if_pos c5, if_pos c6]
        have hd1 : n / 64 / 64 = n / 4096 := by rw [Nat.div_div_eq_div_mul]
        have hd2 : n / 4096 / 64 = n / 262144 := by rw [Nat.div_div_eq_div_mul]
        have hs1 := Nat.div_add_mod n 64
        have hs2 := Nat.div_add_mod (n / 64) 64
        have hs3 := Nat.div_add_mod (n / 4096) 64
        rw [hd1] at hs2
        rw [hd2] at hs3
        have harith : (0xF0 + n / 262144 - 0xF0) * 262144 +
            (0x80 + n / 4096 % 64 - 0x80) * 4096 +
            (0x80 + n / 64 % 64 - 0x80) * 64 + (0x80 + n % 64 - 0x80) = n := by
          omega
        rw [harith]

/-- Decoding inverts encoding, one scalar value at a time. -/
theorem utf8DecodeF_encodeCharN (n : Nat) (hv : n < 0x110000) (fuel : Nat)
    (rest : List Nat) :
    utf8DecodeF (fuel + 1) (utf8EncodeCharN n ++ rest) =
      (utf8DecodeF fuel rest).map (fun cs => Char.ofNat n :: cs) := by
  obtain ⟨b0, tl, henc, hdec⟩ := utf8DecodeOne_encode n hv rest
  rw [henc, List.cons_append, utf8DecodeF, hdec]

theorem utf8DecodeF_encodeL (cs : List Char) :
    ∀ fuel, cs.length ≤ fuel → utf8DecodeF fuel (utf8EncodeL cs) = some cs := by
  induction cs with
  | nil => intro fuel _; cases fuel <;> rfl
  | cons c cs ih =>
    intro fuel hf
    obtain ⟨f, rfl⟩ : ∃ f, fuel = f + 1 := by
      cases fuel
      · simp at hf
      · exact ⟨_, rfl⟩
    have hlen : cs.length ≤ f := by
      have := hf
      simp only [List.length_cons] at this
      omega
    rw [utf8EncodeL, utf8EncodeChar,
      utf8DecodeF_encodeCharN c.toNat (char_toNat_lt c) f (utf8EncodeL cs),
      ih f hlen, Char.ofNat_toNat]
    rfl

theorem utf8EncodeL_length (cs : List Char) : cs.length ≤ (utf8EncodeL cs).length := by
  induction cs with
  | nil => simp [utf8EncodeL]
  | cons c cs ih =>
    have h1 : 1 ≤ (utf8EncodeChar c).length := by
      rw [utf8EncodeChar, utf8EncodeCharN]
      split
      · simp
      · split
        · simp
        · split <;> simp
    rw [utf8EncodeL]
    simp only [List.length_append, List.length_cons]
    omega

/-- UTF-8 roundtrip on whole strings. -/
theorem utf8Decode_encode (s : String) : utf8Decode (utf8Encode s) = some s := by
  rcases s with ⟨data⟩
  have h := utf8DecodeF_encodeL data (utf8EncodeL data).length (utf8EncodeL_length data)
  simp [utf8Decode, utf8Encode, h]
/-! ### Base64 (model of the `toBase64` / `fromBase64` helpers)

`toBase64` is `Buffer.from(str).toString("base64")` (equivalently the
`TextEncoder`/`btoa` path); `fromBase64` is `Buffer.from(str,
"base64").toString("utf-8")` (equivalently the `atob`/`decodeURIComponent`
path).  We model the canonical padded base64 encoding; decoding of malformed
input yields `none`. -/

def b64Alphabet : List Char :=
  "ABCDEFGHIJKLMNOPQRSTUVWXYZabcdefghijklmnopqrstuvwxyz0123456789+/".data

/-- Character for a 6-bit group. -/
def b64Char (d : Nat) : Char := b64Alphabet.getD d 'A'

/-- Value of a base64 digit character. -/
def b64Val (c : Char) : Option Nat := b64Alphabet.findIdx? (fun x => x == c)

/-- Base64 encoding of a byte list, three bytes at a time, with padding. -/
def b64EncodeBytes : List Nat → List Char
  | [] => []
  | [a] => [b64Char (a / 4), b64Char (a % 4 * 16), '=', '=']
  | [a, b] => [b64Char (a / 4), b64Char (a % 4 * 16 + b / 16), b64Char (b % 16 * 4), '=']
  | a :: b :: c :: rest =>
    b64Char (a / 4) :: b64Char (a % 4 * 16 + b / 16) :: b64Char (b % 16 * 4 + c / 64) ::
      b64Char (c % 64) :: b64EncodeBytes rest

/-- Result of decoding one 4-character base64 group: a final (padded) group
or a full group of three bytes. -/
inductive B64Group where
  | last (bs : List Nat)
  | full (bs : List Nat)
deriving DecidableEq

/-- Decode one 4-character base64 group. -/
def b64DecodeGroup (w x y z : Char) : Option B64Group :=
  match b64Val w, b64Val x with
  | some vw, some vx =>
    if y = '=' then
      if z = '=' then some (.last [vw * 4 + vx / 16]) else none
    else
      match b64Val y with
      | some vy =>
        if z = '=' then some (.last [vw * 4 + vx / 16, vx % 16 * 16 + vy / 4])
        else
          match b64Val z with
          | some vz =>
            some (.full [vw * 4 + vx / 16, vx % 16 * 16 + vy / 4, vy % 4 * 64 + vz])
          | none => none
      | none => none
  | _, _ => none

/-- Base64 decoding of a character list to bytes. -/
def b64DecodeBytes : List Char → Option (List Nat)
  | [] => some []
  | w :: x :: y :: z :: rest =>
    match b64DecodeGroup w x y z with
    | some (.full bs) => (b64DecodeBytes rest).map (fun tl => bs ++ tl)
    | some (.last bs) => if rest = [] then some bs else none
    | none => none
  | _ => none

theorem b64Val_b64Char : ∀ d ∈ List.range 64, b64Val (b64Char d) = some d := by
  decide

theorem b64Char_ne_pad : ∀ d ∈ List.range 64, b64Char d ≠ '=' := by
  decide

theorem b64DecodeGroup_one (a : Nat) (ha : a < 256) :
    b64DecodeGroup (b64Char (a / 4)) (b64Char (a % 4 * 16)) '=' '=' =
      some (.last [a]) := by
  have hw := b64Val_b64Char (a / 4) (List.mem_range.mpr (by omega))
  have hx := b64Val_b64Char (a % 4 * 16) (List.mem_range.mpr (by omega))
  simp only [b64DecodeGroup, hw, hx, ite_true]
  have hA : a / 4 * 4 + a % 4 * 16 / 16 = a := by omega
  rw [hA]

theorem b64DecodeGroup_two (a b : Nat) (ha : a < 256) (hb : b < 256) :
    b64DecodeGroup (b64Char (a / 4)) (b64Char (a % 4 * 16 + b / 16))
      (b64Char (b % 16 * 4)) '=' = some (.last [a, b]) := by
  have hw := b64Val_b64Char (a / 4) (List.mem_range.mpr (by omega))
  have hx := b64Val_b64Char (a % 4 * 16 + b / 16) (List.mem_range.mpr (by omega))
  have hy := b64Val_b64Char (b % 16 * 4) (List.mem_range.mpr (by omega))
  have hyne := b64Char_ne_pad (b % 16 * 4) (List.mem_range.mpr (by omega))
  simp only [b64DecodeGroup, hw, hx, hy, if_neg hyne, ite_true]
  have hA : a / 4 * 4 + (a % 4 * 16 + b / 16) / 16 = a := by omega
  have hB : (a % 4 * 16 + b / 16) % 16 * 16 + b % 16 * 4 / 4 = b := by omega
  rw [hA, hB]

theorem b64DecodeGroup_three (a b c : Nat) (ha : a < 256) (hb : b < 256)
    (hc : c < 256) :
    b64DecodeGroup (b64Char (a / 4)) (b64Char (a % 4 * 16 + b / 16))
      (b64Char (b % 16 * 4 + c / 64)) (b64Char (c % 64)) =
      some (.full [a, b, c]) := by
  have hw := b64Val_b64Char (a / 4) (List.mem_range.mpr (by omega))
  have hx := b64Val_b64Char (a % 4 * 16 + b / 16) (List.mem_range.mpr (by omega))
  have hy := b64Val_b64Char (b % 16 * 4 + c / 64) (List.mem_range.mpr (by omega))
  have hz := b64Val_b64Char (c % 64) (List.mem_range.mpr (by omega))
  have hyne := b64Char_ne_pad (b % 16 * 4 + c / 64) (List.mem_range.mpr (by omega))
  have hzne := b64Char_ne_pad (c % 64) (List.mem_range.mpr (by omega))
  simp only [b64DecodeGroup, hw, hx, hy, hz, if_neg hyne, if_neg hzne]
  have hA : a / 4 * 4 + (a % 4 * 16 + b / 16) / 16 = a := by omega
  have hB : (a % 4 * 16 + b / 16) % 16 * 16 + (b % 16 * 4 + c / 64) / 4 = b := by omega
  have hC : (b % 16 * 4 + c / 64) % 4 * 64 + c % 64 = c := by omega
  rw [hA, hB, hC]

/-- Base64 roundtrip at the byte level. -/
theorem b64DecodeBytes_encode :
    ∀ bs : List Nat, (∀ x ∈ bs, x < 256) → b64DecodeBytes (b64EncodeBytes bs) = some bs
  | [], _ => rfl
  | [a], h => by
    have ha : a < 256 := h a (by simp)
    rw [b64EncodeBytes, b64DecodeBytes, b64DecodeGroup_one a ha]
    rfl
  | [a, b], h => by
    have ha : a < 256 := h a (by simp)
    have hb : b < 256 := h b (by simp)
    rw [b64EncodeBytes, b64DecodeBytes, b64DecodeGroup_two a b ha hb]
    rfl
  | a :: b :: c :: rest, h => by
    have ha : a < 256 := h a (by simp)
    have hb : b < 256 := h b (by simp)
    have hc : c < 256 := h c (by simp)
    have hrest : ∀ x ∈ rest, x < 256 := fun x hx => h x (by simp [hx])
    rw [b64EncodeBytes, b64DecodeBytes, b64DecodeGroup_three a b c ha hb hc,
      b64DecodeBytes_encode rest hrest]
    rfl

/-- Every byte produced by the UTF-8 encoder is below 256. -/
theorem utf8EncodeCharN_lt (n : Nat) (hv : n < 0x110000) :
    ∀ x ∈ utf8EncodeCharN n, x < 256 := by
  intro x hx
  rw [utf8EncodeCharN] at hx
  split at hx
  · simp only [List.mem_singleton] at hx
    omega
  · split at hx
    · simp only [List.mem_cons, List.mem_singleton, List.not_mem_nil, or_false] at hx
      rcases hx with rfl | rfl <;> omega
    · split at hx
      · simp only [List.mem_cons, List.mem_singleton, List.not_mem_nil, or_false] at hx
        rcases hx with rfl | rfl | rfl <;> omega
      · simp only [List.mem_cons, List.mem_singleton, List.not_mem_nil, or_false] at hx
        rcases hx with rfl | rfl | rfl | rfl <;> omega

theorem utf8EncodeL_lt (cs : List Char) : ∀ x ∈ utf8EncodeL cs, x < 256 := by
  induction cs with
  | nil => simp [utf8EncodeL]
  | cons c cs ih =>
    intro x hx
    rw [utf8EncodeL] at hx
    rcases List.mem_append.mp hx with hx | hx
    · exact utf8EncodeCharN_lt c.toNat (char_toNat_lt c) x hx
    · exact ih x hx

/-- Model of the SDK's `toBase64` helper (identical in `src/evm/client.ts`,
`src/solana/client.ts` and `src/middleware/express.ts`): UTF-8 encode, then
base64. -/
def toBase64 (s : String) : String :=
  String.mk (b64EncodeBytes (utf8Encode s))

/-- Model of the SDK's `fromBase64` helper: base64 decode, then UTF-8 decode;
`none` models a thrown decoding error. -/
def fromBase64 (s : String) : Option String :=
  match b64DecodeBytes s.data with
  | some bs => utf8Decode bs
  | none => none

/-! ### Base58 (model of the external `bs58` library used by the Solana code)

`bs58.encode` treats the byte array as a big-endian number, emits base-58
digits, and prefixes one `'1'` per leading zero byte; `bs58.decode` inverts
this and throws on characters outside the alphabet (modelled as `none`). -/

def b58Alphabet : List Char :=
  "123456789ABCDEFGHJKLMNPQRSTUVWXYZabcdefghijkmnopqrstuvwxyz".data

/-- Character for a base-58 digit. -/
def b58Char (d : Nat) : Char := b58Alphabet.getD d '1'

/-- Value of a base-58 digit character. -/
def b58Val (c : Char) : Option Nat := b58Alphabet.findIdx? (fun x => x == c)

/-- Big-endian value of a byte list. -/
def bytesToNat (bs : List Nat) : Nat := bs.foldl (fun acc b => acc * 256 + b) 0

/-- Traverse a list under a partial function, failing if any element fails. -/
def listMapOption {α β : Type} (f : α → Option β) : List α → Option (List β)
  | [] => some []
  | a :: as =>
    match f a, listMapOption f as with
    | some b, some bs => some (b :: bs)
    | _, _ => none

/-- Model of `bs58.encode`. -/
def bs58encode (bs : List Nat) : String :=
  let zeros := bs.takeWhile (fun b => b == 0)
  let n := bytesToNat bs
  let digits := (natToDigitsF 58 n n).reverse
  String.mk (zeros.map (fun _ => '1') ++ digits.map b58Char)

/-- Model of `bs58.decode`; `none` models a thrown error on malformed input. -/
def bs58decode (s : String) : Option (List Nat) :=
  let ones := s.data.takeWhile (fun c => c == '1')
  let rest := s.data.dropWhile (fun c => c == '1')
  match listMapOption b58Val rest with
  | none => none
  | some ds =>
    let n := ds.foldl (fun acc d => acc * 58 + d) 0
    some (ones.map (fun _ => 0) ++ (natToDigitsF 256 n n).reverse)

theorem b58Val_b58Char : ∀ d ∈ List.range 58, b58Val (b58Char d) = some d := by
  decide

theorem b58Char_ne_one : ∀ d ∈ List.range 58, d ≠ 0 → b58Char d ≠ '1' := by
  decide

/-- Generic fold-to-value lemma: a big-endian fold equals the little-endian
value of the reversed list. -/
theorem foldl_base (B : Nat) : ∀ (l : List Nat) (acc : Nat),
    l.foldl (fun a d => a * B + d) acc = acc * B ^ l.length + fromDigitsLE B l.reverse := by
  intro l
  induction l with
  | nil => intro acc; simp [fromDigitsLE]
  | cons d t ih =>
    intro acc
    have h1 : (d :: t).foldl (fun a x => a * B + x) acc =
        t.foldl (fun a x => a * B + x) (acc * B + d) := rfl
    rw [h1, ih]
    have h2 : fromDigitsLE B ((d :: t).reverse) =
        fromDigitsLE B t.reverse + d * B ^ t.length := by
      have : (d :: t).reverse = t.reverse ++ [d] := by simp
      rw [this]
      have hgen : ∀ (xs : List Nat) (x : Nat),
          fromDigitsLE B (xs ++ [x]) = fromDigitsLE B xs + x * B ^ xs.length := by
        intro xs
        induction xs with
        | nil => intro x; simp [fromDigitsLE]
        | cons a as ihx =>
          intro x
          have h3 : fromDigitsLE B ((a :: as) ++ [x]) =
              a + B * fromDigitsLE B (as ++ [x]) := rfl
          have h4 : fromDigitsLE B (a :: as) = a + B * fromDigitsLE B as := rfl
          rw [h3, ihx, h4, List.length_cons]
          ring
      rw [hgen, List.length_reverse]
    rw [h2, List.length_cons]
    ring

theorem listMapOption_b58 (ds : List Nat) (h : ∀ d ∈ ds, d < 58) :
    listMapOption b58Val (ds.map b58Char) = some ds := by
  induction ds with
  | nil => rfl
  | cons d t ih =>
    have hd := b58Val_b58Char d (List.mem_range.mpr (h d (List.mem_cons_self _ _)))
    have ht := ih (fun x hx => h x (List.mem_cons_of_mem _ hx))
    simp only [List.map_cons, listMapOption, hd, ht]

theorem takeWhile_append_all {α : Type} (p : α → Bool) (xs ys : List α)
    (h : ∀ x ∈ xs, p x) : (xs ++ ys).takeWhile p = xs ++ ys.takeWhile p := by
  induction xs with
  | nil => simp
  | cons a t ih =>
    have ha : p a := h a (List.mem_cons_self _ _)
    simp only [List.cons_append, List.takeWhile_cons, ha, ite_true]
    rw [ih (fun x hx => h x (List.mem_cons_of_mem _ hx))]

theorem dropWhile_append_all {α : Type} (p : α → Bool) (xs ys : List α)
    (h : ∀ x ∈ xs, p x) : (xs ++ ys).dropWhile p = ys.dropWhile p := by
  induction xs with
  | nil => simp
  | cons a t ih =>
    have ha : p a := h a (List.mem_cons_self _ _)
    simp only [List.cons_append, List.dropWhile_cons, ha, ite_true]
    exact ih (fun x hx => h x (List.mem_cons_of_mem _ hx))

theorem map_zero_of_all_zero (z : List Nat) (hz : ∀ x ∈ z, x = 0) :
    z.map (fun _ => 0) = z := by
  have h := List.map_congr_left (l := z) (f := fun _ => (0 : Nat)) (g := id)
    (fun a ha => (hz a ha).symm)
  rw [h, List.map_id]

/-- Roundtrip for the base58 model on byte lists. -/
theorem bs58decode_encode (bs : List Nat) (h : ∀ x ∈ bs, x < 256) :
    bs58decode (bs58encode bs) = some bs := by
  have hzr : bs.takeWhile (fun b => b == 0) ++ bs.dropWhile (fun b => b == 0) = bs :=
    List.takeWhile_append_dropWhile (fun b => b == 0) bs
  have hz : ∀ x ∈ bs.takeWhile (fun b => b == 0), x = 0 := by
    intro x hx
    have := List.mem_takeWhile_imp hx
    simpa using this
  have hacc : (bs.takeWhile (fun b => b == 0)).foldl (fun acc b => acc * 256 + b) 0 = 0 := by
    rw [foldl_base]
    have hrevz : ∀ x ∈ (bs.takeWhile (fun b => b == 0)).reverse, x = 0 := by
      intro x hx
      exact hz x (List.mem_reverse.mp hx)
    have : fromDigitsLE 256 (bs.takeWhile (fun b => b == 0)).reverse = 0 := by
      generalize (bs.takeWhile (fun b => b == 0)).reverse = l at hrevz
      induction l with
      | nil => rfl
      | cons a t iht =>
        have ha : a = 0 := hrevz a (List.mem_cons_self _ _)
        have ht := iht (fun x hx => hrevz x (List.mem_cons_of_mem _ hx))
        simp [fromDigitsLE, ha, ht]
    omega
  have hn : bytesToNat bs =
      fromDigitsLE 256 (bs.dropWhile (fun b => b == 0)).reverse := by
    have h1 : bytesToNat bs =
        (bs.takeWhile (fun b => b == 0) ++ bs.dropWhile (fun b => b == 0)).foldl
          (fun acc b => acc * 256 + b) 0 := by rw [hzr]; rfl
    rw [h1, List.foldl_append, hacc, foldl_base]
    omega
  rcases hrshape : bs.dropWhile (fun b => b == 0) with _ | ⟨a, t⟩
  · -- no non-zero suffix: the value is zero and there are no digit characters
    have hbs : bs.takeWhile (fun b => b == 0) = bs := by
      conv_rhs => rw [← hzr, hrshape, List.append_nil]
    have hn0 : bytesToNat bs = 0 := by
      rw [hn, hrshape]
      rfl
    rw [bs58encode, hn0]
    have hdig : natToDigitsF 58 0 0 = [] := rfl
    rw [hdig]
    simp only [List.reverse_nil, List.map_nil, List.append_nil]
    rw [bs58decode]
    have hall1 : ∀ c ∈ (bs.takeWhile (fun b => b == 0)).map (fun _ => '1'),
        (c == '1') = true := by
      intro c hc
      rcases List.mem_map.mp hc with ⟨x, _, rfl⟩
      rfl
    have htw : ((bs.takeWhile (fun b => b == 0)).map (fun _ => '1')).takeWhile
        (fun c => c == '1') = (bs.takeWhile (fun b => b == 0)).map (fun _ => '1') := by
      have := takeWhile_append_all (fun c => c == '1')
        ((bs.takeWhile (fun b => b == 0)).map (fun _ => '1')) [] hall1
      simpa using this
    have hdw : ((bs.takeWhile (fun b => b == 0)).map (fun _ => '1')).dropWhile
        (fun c => c == '1') = [] := by
      have := dropWhile_append_all (fun c => c == '1')
        ((bs.takeWhile (fun b => b == 0)).map (fun _ => '1')) [] hall1
      simpa using this
    simp only [htw, hdw, listMapOption]
    have hmaps : ((bs.takeWhile (fun b => b == 0)).map (fun _ => '1')).map
        (fun _ => (0 : Nat)) = bs.takeWhile (fun b => b == 0) := by
      rw [List.map_map]
      exact map_zero_of_all_zero _ hz
    rw [List.foldl_nil]
    simp only [natToDigitsF, List.reverse_nil, List.append_nil]
    rw [hmaps, hbs]
  · -- a non-zero suffix exists: the numeric part is non-zero
    have ha : a ≠ 0 := by
      have hhead : ¬((a == (0 : Nat)) = true) := by
        have hd := List.head?_dropWhile_not (fun b => b == 0) bs
        rw [hrshape] at hd
        simpa using hd
      simpa using hhead
    have hrsub : ∀ x ∈ a :: t, x < 256 := by
      intro x hx
      apply h
      rw [← hzr, hrshape]
      exact List.mem_append_right _ hx
    have hnpos : bytesToNat bs ≠ 0 := by
      rw [hn, hrshape]
      intro h0
      have hall := fromDigitsLE_eq_zero 256 (by omega) _ h0
      exact ha (hall a (by simp))
    set n := bytesToNat bs with hdefn
    have hdigval : fromDigitsLE 58 (natToDigitsF 58 n n) = n :=
      fromDigitsLE_natToDigitsF 58 (by omega) n n le_rfl
    have hdiglt : ∀ d ∈ natToDigitsF 58 n n, d < 58 :=
      natToDigitsF_lt 58 (by omega) n n
    have hdiglast : (natToDigitsF 58 n n).getLast? ≠ some 0 :=
      natToDigitsF_getLast 58 (by omega) n n hnpos le_rfl
    have hdigne : natToDigitsF 58 n n ≠ [] := by
      intro hnil
      rw [hnil] at hdigval
      exact hnpos (by simpa [fromDigitsLE] using hdigval.symm)
    rcases hbe : (natToDigitsF 58 n n).reverse with _ | ⟨d0, ds⟩
    · exact absurd (by simpa using congrArg List.reverse hbe) hdigne
    · have hd0 : d0 ≠ 0 := by
        have hh : (natToDigitsF 58 n n).reverse.head? = some d0 := by
          rw [hbe]; rfl
        rw [List.head?_reverse] at hh
        intro h0
        rw [h0] at hh
        exact hdiglast hh
      have hd0lt : d0 < 58 := by
        have : d0 ∈ natToDigitsF 58 n n := by
          have : d0 ∈ (natToDigitsF 58 n n).reverse := by rw [hbe]; simp
          exact List.mem_reverse.mp this
        exact hdiglt d0 this
      have hdslt : ∀ d ∈ d0 :: ds, d < 58 := by
        intro d hd
        apply hdiglt
        have : d ∈ (natToDigitsF 58 n n).reverse := by rw [hbe]; exact hd
        exact List.mem_reverse.mp this
      rw [bs58encode, ← hdefn, hbe]
      rw [bs58decode]
      have hall1 : ∀ c ∈ (bs.takeWhile (fun b => b == 0)).map (fun _ => '1'),
          (c == '1') = true := by
        intro c hc
        rcases List.mem_map.mp hc with ⟨x, _, rfl⟩
        rfl
      have hne1 : (b58Char d0 == '1') = false := by
        have := b58Char_ne_one d0 (List.mem_range.mpr hd0lt) hd0
        simpa using this
      have htw : (((bs.takeWhile (fun b => b == 0)).map (fun _ => '1')) ++
          (d0 :: ds).map b58Char).takeWhile (fun c => c == '1') =
          (bs.takeWhile (fun b => b == 0)).map (fun _ => '1') := by
        rw [takeWhile_append_all _ _ _ hall1]
        simp only [List.map_cons, List.takeWhile_cons, hne1]
        simp
      have hdw : (((bs.takeWhile (fun b => b == 0)).map (fun _ => '1')) ++
          (d0 :: ds).map b58Char).dropWhile (fun c => c == '1') =
          (d0 :: ds).map b58Char := by
        rw [dropWhile_append_all _ _ _ hall1]
        simp only [List.map_cons, List.dropWhile_cons, hne1]
        simp
      simp only [htw, hdw, listMapOption_b58 _ hdslt]
      have hfold : (d0 :: ds).foldl (fun acc d => acc * 58 + d) 0 = n := by
        rw [foldl_base]
        have : (d0 :: ds).reverse = natToDigitsF 58 n n := by
          have := congrArg List.reverse hbe
          simpa using this.symm
        rw [this, hdigval]
        omega
      rw [hfold]
      have hbytes : natToDigitsF 256 n n = (a :: t).reverse := by
        have hval : fromDigitsLE 256 ((a :: t).reverse) = n := by
          rw [hn, hrshape]
        have hlt : ∀ d ∈ (a :: t).reverse, d < 256 := by
          intro d hd
          exact hrsub d (List.mem_reverse.mp hd)
        have hlast : (a :: t).reverse = [] ∨ ((a :: t).reverse).getLast? ≠ some 0 := by
          right
          rw [List.getLast?_reverse]
          intro hsome
          exact ha (by simpa using hsome)
        have := natToDigitsF_fromDigitsLE 256 (by omega) ((a :: t).reverse)
          hlt hlast n (by rw [hval])
        rw [hval] at this
        exact this
      rw [hbytes, List.reverse_reverse]
      have hmaps : ((bs.takeWhile (fun b => b == 0)).map (fun _ => '1')).map
          (fun _ => (0 : Nat)) = bs.takeWhile (fun b => b == 0) := by
        rw [List.map_map]
        exact map_zero_of_all_zero _ hz
      rw [hmaps, ← hrshape, hzr]

/-! ### Decimal printing of numbers (model of JS number-to-string) -/

/-- Decimal string of a natural number (model of `${n}` / `String(n)` for
non-negative integers). -/
def natToString (n : Nat) : String :=
  if n = 0 then "0"
  else String.mk (((natToDigitsF 10 n n).reverse).map (fun d => Char.ofNat (48 + d)))

theorem char_toNat_ofNat (n : Nat) (h : n < 0xD800) : (Char.ofNat n).toNat = n := by
  simp only [Char.ofNat]
  rw [dif_pos (Or.inl h)]
  rfl

theorem foldl_digits_map (ds : List Nat) (h : ∀ d ∈ ds, d < 10) : ∀ acc : Nat,
    (ds.map (fun d => Char.ofNat (48 + d))).foldl (fun acc c => acc * 10 + digitVal c) acc =
      ds.foldl (fun acc d => acc * 10 + d) acc := by
  induction ds with
  | nil => intro acc; rfl
  | cons d t ih =>
    intro acc
    have hd : d < 10 := h d (List.mem_cons_self _ _)
    have hchar : digitVal (Char.ofNat (48 + d)) = d := by
      rw [digitVal, char_toNat_ofNat (48 + d) (by omega)]
      omega
    simp only [List.map_cons, List.foldl_cons, hchar]
    exact ih (fun x hx => h x (List.mem_cons_of_mem _ hx)) _

/-- `natToString` prints the decimal value faithfully. -/
theorem decVal_natToString (n : Nat) : decVal (natToString n) = n := by
  by_cases hn : n = 0
  · subst hn; rfl
  · rw [natToString, if_neg hn]
    have hlt : ∀ d ∈ (natToDigitsF 10 n n).reverse, d < 10 := by
      intro d hd
      exact natToDigitsF_lt 10 (by omega) n n d (List.mem_reverse.mp hd)
    show decValL (((natToDigitsF 10 n n).reverse).map (fun d => Char.ofNat (48 + d))) = n
    rw [decValL, foldl_digits_map _ hlt, foldl_base, List.reverse_reverse,
      fromDigitsLE_natToDigitsF 10 (by omega) n n le_rfl]
    omega

/-- `natToString` is injective. -/
theorem natToString_inj (m n : Nat) (h : natToString m = natToString n) : m = n := by
  have hm := decVal_natToString m
  have hn := decVal_natToString n
  rw [h] at hm
  omega

/-! ### Network registry (`src/core/networks.ts`)

The static `SUPPORTED_NETWORKS` table, `getNetworkConfig` and `toCAIP2`,
translated entry for entry from the source. -/

structure NetworkConfig where
  chainId : Nat
  name : String
  rpcUrl : String
  facilitatorUrl : String
  facilitatorAddress : String
  defaultAsset : String
  explorerUrl : String
  decimals : Nat
  tokenName : String
deriving DecidableEq, Repr

def SUPPORTED_NETWORKS_LIST : List (String × NetworkConfig) :=
  [ ("base",
     { chainId := 8453, name := "Base", rpcUrl := "https://mainnet.base.org",
       facilitatorUrl := "https://x402.stablecoin.xyz",
       facilitatorAddress := "0xdeE710bB6a3b652C35B5cB74E7bdb03EE1F641E6",
       defaultAsset := "0xfdcC3dd6671eaB0709A4C0f3F53De9a333d80798",
       explorerUrl := "https://basescan.org", decimals := 18,
       tokenName := "Stable Coin" }),
    ("base-sepolia",
     { chainId := 84532, name := "Base Sepolia", rpcUrl := "https://sepolia.base.org",
       facilitatorUrl := "https://x402.stablecoin.xyz",
       facilitatorAddress := "0xdeE710bB6a3b652C35B5cB74E7bdb03EE1F641E6",
       defaultAsset := "0xf9FB20B8E097904f0aB7d12e9DbeE88f2dcd0F16",
       explorerUrl := "https://sepolia.basescan.org", decimals := 6,
       tokenName := "Stable Coin" }),
    ("radius",
     { chainId := 723, name := "Radius", rpcUrl := "",
       facilitatorUrl := "https://x402.stablecoin.xyz",
       facilitatorAddress := "0xdeE710bB6a3b652C35B5cB74E7bdb03EE1F641E6",
       defaultAsset := "", explorerUrl := "", decimals := 6,
       tokenName := "Stable Coin" }),
    ("radius-testnet",
     { chainId := 72344, name := "Radius Testnet", rpcUrl := "",
       facilitatorUrl := "https://x402.stablecoin.xyz",
       facilitatorAddress := "0xdeE710bB6a3b652C35B5cB74E7bdb03EE1F641E6",
       defaultAsset := "", explorerUrl := "", decimals := 6,
       tokenName := "Stable Coin" }),
    ("solana",
     { chainId := 0, name := "Solana", rpcUrl := "https://api.mainnet-beta.solana.com",
       facilitatorUrl := "https://x402.stablecoin.xyz",
       facilitatorAddress := "2mSjKVjzRGXcipq3DdJCijbepugfNSJCN1yVN2tgdw5K",
       defaultAsset := "", explorerUrl := "https://explorer.solana.com",
       decimals := 9, tokenName := "" }),
    ("solana-devnet",
     { chainId := 0, name := "Solana Devnet", rpcUrl := "https://api.devnet.solana.com",
       facilitatorUrl := "https://x402.stablecoin.xyz",
       facilitatorAddress := "2mSjKVjzRGXcipq3DdJCijbepugfNSJCN1yVN2tgdw5K",
       defaultAsset := "",
       explorerUrl := "https://explorer.solana.com?cluster=devnet",
       decimals := 9, tokenName := "" }) ]

/-- Model of the `SUPPORTED_NETWORKS` record lookup (`SUPPORTED_NETWORKS[n]`). -/
def SUPPORTED_NETWORKS (network : String) : Option NetworkConfig :=
  (SUPPORTED_NETWORKS_LIST.find? (fun p => p.1 == network)).map (fun p => p.2)

/-- The record keys, in insertion order (model of `Object.keys`). -/
def supportedNetworkNames : List String :=
  SUPPORTED_NETWORKS_LIST.map (fun p => p.1)

/-- Model of `getNetworkConfig`; `Except.error` models `throw new Error(...)`. -/
def getNetworkConfig (network : String) : Except String NetworkConfig :=
  match SUPPORTED_NETWORKS network with
  | some config => .ok config
  | none =>
    .error ("Unsupported network: \"" ++ network ++ "\". Supported: " ++
      String.intercalate ", " supportedNetworkNames)

/-- Model of `toCAIP2`; `Except.error` models `throw new Error(...)`. -/
def toCAIP2 (network : String) : Except String String :=
  match SUPPORTED_NETWORKS network with
  | none => .error ("Unsupported network: \"" ++ network ++ "\"")
  | some config =>
    if network = "solana" then .ok "solana:mainnet-beta"
    else if network = "solana-devnet" then .ok "solana:devnet"
    else .ok ("eip155:" ++ natToString config.chainId)

/-- Total variant of `toCAIP2` used where the source has already validated the
network (gate construction validates eagerly, clients select only supported
networks): `none` if and only if `toCAIP2` would throw. -/
def caip2 (network : String) : Option String := (toCAIP2 network).toOption

/-! ### Retry executor (`src/core/retry.ts`)

`withRetry` is modelled as a pure function of the per-attempt outcomes
(attempt numbers are 1-based, as in the source loop).  Its result records the
list of awaited back-off delays together with the final outcome; the error
`none` corresponds to the unreachable `throw lastError ?? new Error(...)`
fall-through after the loop. -/

/-- A JavaScript `Error` as observed by the SDK: `name`, `message`, and the
`statusCode` field added by `FacilitatorError`. -/
structure JsError where
  name : String
  message : String
  statusCode : Option Nat := none
deriving DecidableEq, Repr

/-- Caller-supplied retry options (all fields optional, as in the source). -/
structure RetryOptions where
  maxAttempts : Option Nat := none
  initialDelay : Option Nat := none
  maxDelay : Option Nat := none
  backoffMultiplier : Option Nat := none
  retryableErrors : Option (List String) := none

/-- Fully-resolved retry options (`Required<RetryOptions>`). -/
structure ResolvedRetryOptions where
  maxAttempts : Nat
  initialDelay : Nat
  maxDelay : Nat
  backoffMultiplier : Nat
  retryableErrors : List String
deriving DecidableEq, Repr

/-- The `DEFAULT_OPTIONS.retryableErrors` token list. -/
def defaultRetryableErrors : List String :=
  ["ECONNRESET", "ETIMEDOUT", "ENOTFOUND", "ECONNREFUSED", "TIMEOUT", "NETWORK_ERROR"]

/-- Model of `const opts = { ...DEFAULT_OPTIONS, ...options }`. -/
def mergeRetryOptions (options : RetryOptions) : ResolvedRetryOptions :=
  { maxAttempts := options.maxAttempts.getD 3
    initialDelay := options.initialDelay.getD 1000
    maxDelay := options.maxDelay.getD 10000
    backoffMultiplier := options.backoffMultiplier.getD 2
    retryableErrors := options.retryableErrors.getD defaultRetryableErrors }

/-- Model of the retryability test: some token is a case-sensitive substring
of the error's `message` or `name`. -/
def isRetryable (opts : ResolvedRetryOptions) (e : JsError) : Bool :=
  opts.retryableErrors.any (fun errMsg => jsIncludes e.message errMsg || jsIncludes e.name errMsg)

/-- The retry loop.  `fuel` counts the attempts still allowed (so the current
attempt is the last one exactly when `fuel = 0` remains after it); `delay` is
the current back-off delay.  Returns the awaited delays and the outcome. -/
def withRetryGo {T : Type} (opts : ResolvedRetryOptions) (outcomes : Nat → Except JsError T) :
    Nat → Nat → Nat → List Nat × Except (Option JsError) T
  | 0, _, _ => ([], .error none)
  | fuel + 1, attempt, delay =>
    match outcomes attempt with
    | .ok v => ([], .ok v)
    | .error e =>
      if isRetryable opts e = false ∨ fuel = 0 then ([], .error (some e))
      else
        let rest := withRetryGo opts outcomes fuel (attempt + 1)
          (min (delay * opts.backoffMultiplier) opts.maxDelay)
        (delay :: rest.1, rest.2)

/-- Model of `withRetry(fn, operation, options)`: run the loop from attempt 1
with the merged options and the initial delay. -/
def withRetry {T : Type} (options : RetryOptions) (outcomes : Nat → Except JsError T) :
    List Nat × Except (Option JsError) T :=
  let opts := mergeRetryOptions options
  withRetryGo opts outcomes opts.maxAttempts 1 opts.initialDelay

/-- Unfolding lemma for a successful attempt. -/
theorem withRetryGo_succ_ok {T : Type} (opts : ResolvedRetryOptions)
    (outcomes : Nat → Except JsError T) (f attempt delay : Nat) (v : T)
    (houtcome : outcomes attempt = .ok v) :
    withRetryGo opts outcomes (f + 1) attempt delay = ([], .ok v) := by
  rw [withRetryGo, houtcome]

/-- Unfolding lemma for a failed attempt. -/
theorem withRetryGo_succ_err {T : Type} (opts : ResolvedRetryOptions)
    (outcomes : Nat → Except JsError T) (f attempt delay : Nat) (e : JsError)
    (houtcome : outcomes attempt = .error e) :
    withRetryGo opts outcomes (f + 1) attempt delay =
      if isRetryable opts e = false ∨ f = 0 then ([], .error (some e))
      else
        (delay :: (withRetryGo opts outcomes f (attempt + 1)
            (min (delay * opts.backoffMultiplier) opts.maxDelay)).1,
          (withRetryGo opts outcomes f (attempt + 1)
            (min (delay * opts.backoffMultiplier) opts.maxDelay)).2) := by
  rw [withRetryGo, houtcome]

/-- The delay awaited after the `i`-th consecutive failure, starting from
current delay `d`: iterate `d ↦ min (d * m) M`. -/
def backoffIter (m M : Nat) : Nat → Nat → Nat
  | 0, d => d
  | i + 1, d => backoffIter m M i (min (d * m) M)

/-- Each awaited delay follows the `min (d * mult) maxDelay` iteration. -/
theorem withRetryGo_delays {T : Type} (opts : ResolvedRetryOptions)
    (outcomes : Nat → Except JsError T) :
    ∀ fuel attempt delay i x,
      (withRetryGo opts outcomes fuel attempt delay).1.get? i = some x →
      x = backoffIter opts.backoffMultiplier opts.maxDelay i delay := by
  intro fuel
  induction fuel with
  | zero =>
    intro attempt delay i x hx
    simp [withRetryGo] at hx
  | succ f ih =>
    intro attempt delay i x hx
    rcases houtcome : outcomes attempt with e | v
    · rw [withRetryGo_succ_err opts outcomes f attempt delay e houtcome] at hx
      by_cases hcase : isRetryable opts e = false ∨ f = 0
      · rw [if_pos hcase] at hx
        simp at hx
      · rw [if_neg hcase] at hx
        rcases i with _ | j
        · simp at hx
          rw [← hx]
          rfl
        · simp only [List.get?_cons_succ] at hx
          have := ih (attempt + 1) (min (delay * opts.backoffMultiplier) opts.maxDelay) j x hx
          rw [this]
          rfl
    · rw [withRetryGo_succ_ok opts outcomes f attempt delay v houtcome] at hx
      simp at hx

/-- `backoffIter` has the closed form `min (d * m ^ i) M` whenever the
starting delay is within the cap. -/
theorem backoffIter_closed (m M : Nat) :
    ∀ i d, d ≤ M → backoffIter m M i d = min (d * m ^ i) M := by
  intro i
  induction i with
  | zero =>
    intro d hd
    simp [backoffIter, Nat.min_eq_left]
    omega
  | succ j ih =>
    intro d hd
    rw [backoffIter]
    by_cases hcap : d * m ≤ M
    · rw [Nat.min_eq_left hcap, ih (d * m) hcap]
      have : d * m * m ^ j = d * m ^ (j + 1) := by ring
      rw [this]
    · have hm : 1 ≤ m := by
        by_contra hm0
        have hmz : m = 0 := by omega
        subst hmz
        exact hcap (by simp)
      rw [Nat.min_eq_right (by omega), ih M le_rfl]
      have h1 : M ≤ M * m ^ j := Nat.le_mul_of_pos_right M (Nat.pos_pow_of_pos j hm)
      have h2 : M < d * m ^ (j + 1) := by
        have hpow : m ^ j ≥ 1 := Nat.pos_pow_of_pos j hm
        have : d * m ≤ d * m * m ^ j := Nat.le_mul_of_pos_right _ hpow
        have he : d * m * m ^ j = d * m ^ (j + 1) := by ring
        omega
      rw [Nat.min_eq_right (by omega), Nat.min_eq_right (by omega)]

/-- The number of awaited delays is strictly below the number of attempts
allowed: no delay ever follows the final attempt. -/
theorem withRetryGo_length {T : Type} (opts : ResolvedRetryOptions)
    (outcomes : Nat → Except JsError T) :
    ∀ fuel attempt delay,
      (withRetryGo opts outcomes fuel attempt delay).1.length + 1 ≤ max fuel 1 := by
  intro fuel
  induction fuel with
  | zero => intro attempt delay; simp [withRetryGo]
  | succ f ih =>
    intro attempt delay
    rcases houtcome : outcomes attempt with e | v
    · rw [withRetryGo_succ_err opts outcomes f attempt delay e houtcome]
      by_cases hcase : isRetryable opts e = false ∨ f = 0
      · rw [if_pos hcase]
        simp
      · rw [if_neg hcase]
        have hf : 1 ≤ f := by
          rcases Nat.eq_zero_or_pos f with h0 | h1
          · exact absurd (Or.inr h0) hcase
          · exact h1
        have := ih (attempt + 1) (min (delay * opts.backoffMultiplier) opts.maxDelay)
        simp only [List.length_cons]
        omega
    · rw [withRetryGo_succ_ok opts outcomes f attempt delay v houtcome]
      simp

/-! ### Protocol data types (`src/core/types.ts`) -/

/-- The optional `extra` object on a requirement (EIP-712 token name/version). -/
structure ExtraInfo where
  name : Option String := none
  version : Option String := none
deriving DecidableEq, Repr

/-- One payment offer (`PaymentRequirement`). -/
structure PaymentRequirement where
  scheme : String
  network : String
  maxAmountRequired : String
  resource : String
  description : Option String := none
  mimeType : Option String := none
  payTo : String
  asset : String
  maxTimeoutSeconds : Nat
  facilitator : Option String := none
  extra : Option ExtraInfo := none
deriving DecidableEq, Repr

/-- `VerifyResponse`. -/
structure VerifyResponse where
  isValid : Bool
  invalidReason : Option String := none
deriving DecidableEq, Repr

/-- `SettleResponse` (both `txHash` and `transaction` are accepted aliases). -/
structure SettleResponse where
  success : Bool
  txHash : Option String := none
  transaction : Option String := none
  networkId : Option String := none
  network : Option String := none
  error : Option String := none
  errorReason : Option String := none
deriving DecidableEq, Repr

/-! ### Decimal-to-atomic conversion (`usdToAtomic` in `src/evm/client.ts` and
`src/solana/client.ts`, identical code) -/

/-- Truncate or right-pad the fractional digits to exactly `decimals` digits
(model of `slice`/`padEnd`). -/
def truncOrPad (fractional : List Char) (decimals : Nat) : List Char :=
  if decimals < fractional.length then fractional.take decimals
  else fractional ++ List.replicate (decimals - fractional.length) '0'

/-- Model of `.replace(/^0+(?=\d)/, "")`: remove the longest prefix of zeros
that is followed by a digit (greedy with backtracking). -/
def stripLeadingZeros (s : String) : String :=
  let cs := s.data
  let k := (cs.takeWhile (fun c => c == '0')).length
  if k = 0 then s
  else if h : k < cs.length then
    if (cs.get ⟨k, h⟩).isDigit then String.mk (cs.drop k)
    else if 2 ≤ k then String.mk (cs.drop (k - 1)) else s
  else if 2 ≤ k then String.mk (cs.drop (k - 1)) else s

/-- Model of `usdToAtomic(usdAmount, decimals)`: split on the decimal point,
truncate/pad the fraction, concatenate, strip leading zeros, empty ↦ "0",
read as an integer. -/
def usdToAtomic (usdAmount : String) (decimals : Nat) : Nat :=
  let parts := splitOnCharL '.' usdAmount.data
  let intPart := parts.headD []
  let fractional := truncOrPad (parts.getD 1 []) decimals
  let joined := stripLeadingZeros (String.mk (intPart ++ fractional))
  decVal (if joined = "" then "0" else joined)

theorem truncOrPad_length (fractional : List Char) (decimals : Nat) :
    (truncOrPad fractional decimals).length = decimals := by
  rw [truncOrPad]
  split
  · simp
    omega
  · simp
    omega

/-- Stripping leading zeros never changes the numeric value. -/
theorem decVal_stripLeadingZeros (s : String) :
    decVal (stripLeadingZeros s) = decVal s := by
  have hdrop : ∀ j, j ≤ (s.data.takeWhile (fun c => c == '0')).length →
      decValL (s.data.drop j) = decValL s.data := by
    intro j hj
    have hsplit : s.data.take j ++ s.data.drop j = s.data := List.take_append_drop _ _
    have hzeros : ∀ c ∈ s.data.take j, c = '0' := by
      intro c hc
      have htake : s.data.take j =
          (s.data.takeWhile (fun c => c == '0')).take j := by
        conv_lhs => rw [← List.takeWhile_append_dropWhile (fun c => c == '0') s.data]
        exact List.take_append_of_le_length hj
      rw [htake] at hc
      have hmem : c ∈ s.data.takeWhile (fun c => c == '0') := List.take_subset _ _ hc
      have := List.mem_takeWhile_imp hmem
      simpa using this
    have h1 : decValL s.data = decValL (s.data.take j ++ s.data.drop j) := by rw [hsplit]
    rw [h1, decValL_append, decValL_zeros _ hzeros]
    omega
  rw [stripLeadingZeros]
  by_cases hk : (s.data.takeWhile (fun c => c == '0')).length = 0
  · simp only [hk, ite_true]
  · simp only [hk, ite_false]
    by_cases hlen : (s.data.takeWhile (fun c => c == '0')).length < s.data.length
    · rw [dif_pos hlen]
      split
      · exact hdrop _ le_rfl
      · split
        · exact hdrop _ (by omega)
        · rfl
    · rw [dif_neg hlen]
      split
      · exact hdrop _ (by omega)
      · rfl

/-- Characterisation of `usdToAtomic` on a decimal string `i ++ "." ++ f`
whose two sides contain no further decimal point: the result is the integer
part scaled by `10 ^ decimals` plus the truncated/padded fraction. -/
theorem usdToAtomic_split (i f : List Char) (decimals : Nat)
    (hi : '.' ∉ i) (hf : '.' ∉ f) :
    usdToAtomic (String.mk (i ++ '.' :: f)) decimals =
      decValL i * 10 ^ decimals + decValL (truncOrPad f decimals) := by
  rw [usdToAtomic]
  have hsplit : splitOnCharL '.' (String.mk (i ++ '.' :: f)).data = [i, f] := by
    show splitOnCharL '.' (i ++ '.' :: f) = [i, f]
    rw [splitOnCharL_append '.' i f hi, splitOnCharL_not_mem '.' f hf]
  rw [hsplit]
  show decVal (if stripLeadingZeros (String.mk (i ++ truncOrPad f decimals)) = ""
      then "0" else stripLeadingZeros (String.mk (i ++ truncOrPad f decimals))) = _
  have hval : decVal (stripLeadingZeros (String.mk (i ++ truncOrPad f decimals))) =
      decValL i * 10 ^ decimals + decValL (truncOrPad f decimals) := by
    rw [decVal_stripLeadingZeros]
    show decValL (i ++ truncOrPad f decimals) = _
    rw [decValL_append, truncOrPad_length]
  split
  · rename_i hempty
    rw [hempty] at hval
    have h0 : decVal "" = 0 := rfl
    rw [h0] at hval
    show decVal "0" = _
    rw [← hval]
    rfl
  · exact hval

/-! ### Requirement selector (`selectRequirement` in `src/evm/client.ts`) -/

/-- The decimal precision used for the budget on an offer's network
(`SUPPORTED_NETWORKS[r.network]?.decimals ?? 6`). -/
def budgetDecimals (r : PaymentRequirement) : Nat :=
  match SUPPORTED_NETWORKS r.network with
  | some c => c.decimals
  | none => 6

/-- The survivors of the two filter passes: recognised networks, then (when a
budget is given — JS truthiness: a non-empty string) offers priced at or
below the budget in that network's atomic units. -/
def survivingOffers (requirements : List PaymentRequirement)
    (maxAmount : Option String) : List PaymentRequirement :=
  let supported := requirements.filter (fun r => (SUPPORTED_NETWORKS r.network).isSome)
  match maxAmount with
  | some ma =>
    if ma ≠ "" then
      supported.filter (fun r =>
        decVal r.maxAmountRequired ≤ usdToAtomic ma (budgetDecimals r))
    else supported
  | none => supported

theorem survivingOffers_none (requirements : List PaymentRequirement) :
    survivingOffers requirements none =
      requirements.filter (fun r => (SUPPORTED_NETWORKS r.network).isSome) := rfl

theorem survivingOffers_some (requirements : List PaymentRequirement) (ma : String) :
    survivingOffers requirements (some ma) =
      if ma ≠ "" then
        (requirements.filter (fun r => (SUPPORTED_NETWORKS r.network).isSome)).filter
          (fun r => decVal r.maxAmountRequired ≤ usdToAtomic ma (budgetDecimals r))
      else requirements.filter (fun r => (SUPPORTED_NETWORKS r.network).isSome) := rfl

/-- First element with the numerically smallest `maxAmountRequired` — the
model of `.sort((a, b) => Number(BigInt(a...) - BigInt(b...)))[0]` (JS sort
is stable, so ties keep the earlier offer). -/
def minByAmount : List PaymentRequirement → Option PaymentRequirement
  | [] => none
  | r :: rest =>
    match minByAmount rest with
    | none => some r
    | some m =>
      if decVal m.maxAmountRequired < decVal r.maxAmountRequired then some m else some r

/-- Is this offer on a test network (`includes("sepolia") || includes("testnet")`)? -/
def isTestnetOffer (r : PaymentRequirement) : Bool :=
  jsIncludes r.network "sepolia" || jsIncludes r.network "testnet"

/-- The explicit-preference lookup: the first survivor on the preferred
network, when a (JS-truthy) preference was given. -/
def preferredPick (filtered : List PaymentRequirement)
    (preferredNetwork : Option String) : Option PaymentRequirement :=
  match preferredNetwork with
  | some p => if p ≠ "" then filtered.find? (fun r => r.network == p) else none
  | none => none

/-- Model of `selectRequirement(requirements, preferredNetwork, maxAmount)`. -/
def selectRequirement (requirements : List PaymentRequirement)
    (preferredNetwork : Option String) (maxAmount : Option String) :
    Option PaymentRequirement :=
  let filtered := survivingOffers requirements maxAmount
  if filtered.isEmpty then none
  else
    match preferredPick filtered preferredNetwork with
    | some r => some r
    | none =>
      match filtered.find? isTestnetOffer with
      | some testnet => some testnet
      | none => minByAmount filtered

theorem minByAmount_cons_none (a : PaymentRequirement) (rest : List PaymentRequirement)
    (h : minByAmount rest = none) : minByAmount (a :: rest) = some a := by
  rw [minByAmount, h]

theorem minByAmount_cons_some (a m : PaymentRequirement) (rest : List PaymentRequirement)
    (h : minByAmount rest = some m) :
    minByAmount (a :: rest) =
      if decVal m.maxAmountRequired < decVal a.maxAmountRequired then some m
      else some a := by
  rw [minByAmount, h]

theorem minByAmount_eq_none : ∀ l : List PaymentRequirement,
    minByAmount l = none → l = [] := by
  intro l
  cases l with
  | nil => intro _; rfl
  | cons a rest =>
    intro h
    rcases hrec : minByAmount rest with _ | m
    · rw [minByAmount_cons_none a rest hrec] at h
      exact absurd h (by simp)
    · rw [minByAmount_cons_some a m rest hrec] at h
      split at h <;> exact absurd h (by simp)

theorem minByAmount_mem : ∀ (l : List PaymentRequirement) (r : PaymentRequirement),
    minByAmount l = some r → r ∈ l := by
  intro l
  induction l with
  | nil => intro r h; simp [minByAmount] at h
  | cons a rest ih =>
    intro r h
    rcases hrec : minByAmount rest with _ | m
    · rw [minByAmount_cons_none a rest hrec] at h
      injection h with h
      simp [h]
    · rw [minByAmount_cons_some a m rest hrec] at h
      split at h
      · injection h with h
        rw [← h]
        exact List.mem_cons_of_mem _ (ih m hrec)
      · injection h with h
        rw [← h]
        exact List.mem_cons_self _ _

theorem minByAmount_min : ∀ (l : List PaymentRequirement) (r : PaymentRequirement),
    minByAmount l = some r →
      ∀ x ∈ l, decVal r.maxAmountRequired ≤ decVal x.maxAmountRequired := by
  intro l
  induction l with
  | nil => intro r h; simp [minByAmount] at h
  | cons a rest ih =>
    intro r h x hx
    rcases hrec : minByAmount rest with _ | m
    · rw [minByAmount_cons_none a rest hrec] at h
      injection h with h
      subst h
      have hnil := minByAmount_eq_none rest hrec
      subst hnil
      rcases List.mem_cons.mp hx with rfl | hx
      · exact le_rfl
      · simp at hx
    · rw [minByAmount_cons_some a m rest hrec] at h
      rcases List.mem_cons.mp hx with rfl | hx
      · split at h
        · injection h with h
          subst h
          rename_i hlt
          omega
        · injection h with h
          subst h
          exact le_rfl
      · have hm := ih m hrec x hx
        split at h
        · injection h with h
          subst h
          exact hm
        · injection h with h
          subst h
          rename_i hnlt
          omega

theorem minByAmount_isSome : ∀ (l : List PaymentRequirement), l ≠ [] →
    ∃ r, minByAmount l = some r := by
  intro l hne
  rcases hrec : minByAmount l with _ | m
  · exact absurd (minByAmount_eq_none l hrec) hne
  · exact ⟨m, rfl⟩

/-! ### Facilitator client (`src/core/facilitator.ts`) and errors
(`src/core/errors.ts`)

The HTTP transport is an oracle `Nat → Except JsError HttpResponse` taking
the timeout that was installed on the abort controller; a transport error
with `name = "AbortError"` models the aborted fetch. -/

/-- A fetch `Response` as the client observes it: status and body text. -/
structure HttpResponse where
  status : Nat
  body : String
deriving DecidableEq, Repr

/-- `response.ok`: status in the 200–299 range. -/
def HttpResponse.ok (r : HttpResponse) : Bool := 200 ≤ r.status && r.status < 300

/-- Model of `new PaymentTimeoutError(operation)`. -/
def PaymentTimeoutError (operation : String) : JsError :=
  { name := "PaymentTimeoutError", message := operation ++ " timed out" }

/-- Model of `new FacilitatorError(message, statusCode)`. -/
def FacilitatorError (message : String) (statusCode : Option Nat) : JsError :=
  { name := "FacilitatorError", message := message, statusCode := statusCode }

/-- Constructor options of `FacilitatorClient`. -/
structure FacilitatorClientOptions where
  facilitatorUrl : Option String := none
  timeoutMs : Option Nat := none
  apiKey : Option String := none

/-- The resolved private fields of a `FacilitatorClient` instance. -/
structure FacilitatorClientState where
  overrideUrl : Option String
  timeoutMs : Nat
  apiKey : Option String
deriving DecidableEq, Repr

/-- Model of the `FacilitatorClient` constructor
(`this.timeoutMs = options.timeoutMs ?? 30_000`). -/
def FacilitatorClient.init (options : FacilitatorClientOptions) : FacilitatorClientState :=
  { overrideUrl := options.facilitatorUrl
    timeoutMs := options.timeoutMs.getD 30000
    apiKey := options.apiKey }

/-- Model of `fetchWithTimeout`: run the transport with the instance timeout;
an `AbortError` from the transport becomes a `PaymentTimeoutError`, any other
transport error is re-thrown unchanged. -/
def fetchWithTimeout (timeoutMs : Nat)
    (transport : Nat → Except JsError HttpResponse) : Except JsError HttpResponse :=
  match transport timeoutMs with
  | .ok r => .ok r
  | .error e =>
    if e.name = "AbortError" then .error (PaymentTimeoutError "Facilitator request")
    else .error e

/-- One attempt of `FacilitatorClient.verify`: POST, then fail with
`FacilitatorError` (status + body text) on a non-2xx response, then parse
JSON (parse failure is a `FacilitatorError` as well). -/
def verifyAttempt (timeoutMs : Nat) (transport : Nat → Except JsError HttpResponse)
    (parseJson : String → Option VerifyResponse) : Except JsError VerifyResponse :=
  match fetchWithTimeout timeoutMs transport with
  | .error e => .error e
  | .ok response =>
    if response.ok then
      match parseJson response.body with
      | some v => .ok v
      | none =>
        .error (FacilitatorError "Facilitator verify returned non-JSON response"
          (some response.status))
    else
      .error (FacilitatorError ("Facilitator verify failed: " ++ response.body)
        (some response.status))

/-- Model of `FacilitatorClient.verify`: the attempt wrapped in
`withRetry(..., { maxAttempts: 3 })`.  `transports n` is the transport used
by the `n`-th attempt. -/
def FacilitatorClient.verify (state : FacilitatorClientState)
    (transports : Nat → Nat → Except JsError HttpResponse)
    (parseJson : String → Option VerifyResponse) :
    List Nat × Except (Option JsError) VerifyResponse :=
  withRetry { maxAttempts := some 3 }
    (fun attempt => verifyAttempt state.timeoutMs (transports attempt) parseJson)

/-! ### Express gate (`src/middleware/express.ts`)

The handler is a pure function of: the resolved entries, the request (its URL
and the two possible payment headers), a decode oracle for
`JSON.parse(fromBase64(...))` of the header, and verify/settle oracles
(`Except.error` models a thrown exception, handled by the catch-all). -/

/-- Options of `x402Middleware` for one network. -/
structure X402MiddlewareOptions where
  payTo : String
  amount : String
  network : String
  asset : Option String := none
  description : Option String := none
  facilitatorUrl : Option String := none
  settle : Option Bool := none
deriving DecidableEq, Repr

/-- One entry after upfront validation (`ResolvedEntry`). -/
structure ResolvedEntry where
  payTo : String
  amount : String
  network : String
  asset : String
  description : Option String
  settle : Bool
deriving DecidableEq, Repr

/-- Model of the eager per-entry validation in `x402Middleware`: an unknown
network fails at construction time with the source's message. -/
def resolveEntry (opt : X402MiddlewareOptions) : Except String ResolvedEntry :=
  match SUPPORTED_NETWORKS opt.network with
  | none => .error ("x402Middleware: unsupported network \"" ++ opt.network ++ "\"")
  | some config =>
    .ok { payTo := opt.payTo, amount := opt.amount, network := opt.network,
          asset := opt.asset.getD config.defaultAsset,
          description := opt.description,
          settle := opt.settle.getD true }

/-- Model of `buildRequirement` in the middleware. -/
def buildRequirement (resource payTo amount asset network : String)
    (description : Option String) : PaymentRequirement :=
  let networkConfig := SUPPORTED_NETWORKS network
  { scheme := "exact", network := network, maxAmountRequired := amount,
    resource := resource, description := description, mimeType := none,
    payTo := payTo, asset := asset, maxTimeoutSeconds := 300,
    facilitator := networkConfig.map (fun c => c.facilitatorAddress),
    extra :=
      match networkConfig with
      | some c => if c.tokenName ≠ "" then some { name := some c.tokenName } else none
      | none => none }

/-- Model of `buildRequirements`: one requirement per configured entry. -/
def buildRequirements (resource : String) (entries : List ResolvedEntry) :
    List PaymentRequirement :=
  entries.map (fun e =>
    buildRequirement resource e.payTo e.amount e.asset e.network e.description)

/-- JSON string literal (model of `JSON.stringify` on the SDK's plain
address/URL strings, which need no escaping). -/
def encodeJsonString (s : String) : String := "\"" ++ s ++ "\""

/-- JSON text of one requirement, fields in object-literal order, omitting
absent optionals as `JSON.stringify` omits `undefined`. -/
def encodeRequirement (r : PaymentRequirement) : String :=
  "\x7b" ++ String.intercalate ","
    (([ some ("\"scheme\":" ++ encodeJsonString r.scheme),
        some ("\"network\":" ++ encodeJsonString r.network),
        some ("\"maxAmountRequired\":" ++ encodeJsonString r.maxAmountRequired),
        some ("\"resource\":" ++ encodeJsonString r.resource),
        r.description.map (fun d => "\"description\":" ++ encodeJsonString d),
        some ("\"payTo\":" ++ encodeJsonString r.payTo),
        some ("\"asset\":" ++ encodeJsonString r.asset),
        some ("\"maxTimeoutSeconds\":" ++ natToString r.maxTimeoutSeconds),
        r.facilitator.map (fun f => "\"facilitator\":" ++ encodeJsonString f),
        r.extra.map (fun e =>
          "\"extra\":\x7b" ++ String.intercalate ","
            (([ e.name.map (fun n => "\"name\":" ++ encodeJsonString n),
                e.version.map (fun v => "\"version\":" ++ encodeJsonString v)
              ] : List (Option String)).filterMap id) ++ "\x7d")
      ] : List (Option String)).filterMap id) ++ "\x7d"

/-- JSON text of the 402 body `{ x402Version: 2, accepts }`. -/
def encodeRequirementsBody (requirements : List PaymentRequirement) : String :=
  "\x7b\"x402Version\":2,\"accepts\":[" ++
    String.intercalate "," (requirements.map encodeRequirement) ++ "]\x7d"

/-- JSON text of the confirmation header body
`{ success: true, transaction, network }`. -/
def encodePaymentResponse (transaction network : String) : String :=
  "\x7b\"success\":true,\"transaction\":" ++ encodeJsonString transaction ++
    ",\"network\":" ++ encodeJsonString network ++ "\x7d"

/-- What the handler reads from a decoded payment payload:
`paymentPayload.accepted?.network` (`none` models `undefined`). -/
structure GatePayload where
  acceptedNetwork : Option String
deriving DecidableEq, Repr

/-- The observable outcome of one gate invocation. -/
inductive GateOutcome where
  /-- `send402`: status 402, body `{x402Version, accepts, error?}`, and the
  base64 `PAYMENT-REQUIRED` header encoding the same offer list. -/
  | paymentRequired (accepts : List PaymentRequirement) (headerB64 : String)
      (error : Option String)
  /-- `res.status(402).json({ error: "Payment settlement failed: ..." })` —
  no offer list. -/
  | settleFailed (errMsg : String)
  /-- the catch-all: `res.status(402).json({ error: "Payment processing
  failed: ..." })`. -/
  | processingError (errMsg : String)
  /-- `next()` was called; the optional base64 `PAYMENT-RESPONSE` header was
  set on the response first. -/
  | forward (paymentResponseHeader : Option String)
deriving DecidableEq

/-- Model of `send402`. -/
def send402 (requirements : List PaymentRequirement) (errorMessage : Option String) :
    GateOutcome :=
  .paymentRequired requirements (toBase64 (encodeRequirementsBody requirements))
    errorMessage

/-- String interpolation of a possibly-undefined value (`${x}`). -/
def showOptString : Option String → String
  | some s => s
  | none => "undefined"

/-- The incoming request as the handler sees it. -/
structure GateRequest where
  url : String
  paymentSignatureHeader : Option String := none
  xPaymentHeader : Option String := none
deriving DecidableEq, Repr

/-- `req.headers["payment-signature"] ?? req.headers["x-payment"]`. -/
def GateRequest.rawHeader (req : GateRequest) : Option String :=
  match req.paymentSignatureHeader with
  | some h => some h
  | none => req.xPaymentHeader

/-- Model of the `x402Handler` closure returned by `x402Middleware`. -/
def x402Handler (entries : List ResolvedEntry)
    (decodeHeader : String → Option GatePayload)
    (verify : GatePayload → PaymentRequirement → Except String VerifyResponse)
    (settle : GatePayload → PaymentRequirement → Except String SettleResponse)
    (req : GateRequest) : GateOutcome :=
  match req.rawHeader with
  | none => send402 (buildRequirements req.url entries) none
  | some rawHeader =>
    match decodeHeader rawHeader with
    | none => send402 (buildRequirements req.url entries) (some "Invalid payment header")
    | some payload =>
      match entries.find? (fun e => caip2 e.network == payload.acceptedNetwork) with
      | none =>
        send402 (buildRequirements req.url entries)
          (some ("No payment option found for network \"" ++
            showOptString payload.acceptedNetwork ++ "\""))
      | some matched =>
        let requirement := buildRequirement req.url matched.payTo matched.amount
          matched.asset matched.network matched.description
        match verify payload requirement with
        | .error msg => .processingError ("Payment processing failed: " ++ msg)
        | .ok verifyResult =>
          if verifyResult.isValid = false then
            send402 (buildRequirements req.url entries) verifyResult.invalidReason
          else if matched.settle then
            match settle payload requirement with
            | .error msg => .processingError ("Payment processing failed: " ++ msg)
            | .ok settleResult =>
              if settleResult.success = false then
                .settleFailed ("Payment settlement failed: " ++
                  showOptString
                    (match settleResult.error with
                     | some e => some e
                     | none => settleResult.errorReason))
              else
                match (match settleResult.txHash with
                       | some t => some t
                       | none => settleResult.transaction) with
                | some tx =>
                  if tx ≠ "" then
                    .forward (some (toBase64 (encodePaymentResponse tx matched.network)))
                  else .forward none
                | none => .forward none
          else .forward none

/-! ### Scheme payloads and the payload builder (`src/evm/client.ts`)

The signing calls (`signPermit`, `signSbcPayment`,
`signTransferAuthorization`) perform RPC and signer I/O; their outcomes are
passed as oracles (`Except.error` models any thrown failure, including the
missing-RPC and nonce-fetch errors inside `signPermit`).  The builder's
observable behaviour — which sign operations run, in which order, and the
wire wrapper — is returned explicitly. -/

/-- Inner `authorization` object of an ERC-2612 permit payload
(`from`/`to` are spelled `fromAddr`/`toAddr`). -/
structure PermitAuthorization where
  fromAddr : String
  toAddr : String
  value : String
  validBefore : Nat
  nonce : String
deriving DecidableEq, Repr

/-- `AuthorizationPayload` (permit). -/
structure AuthorizationPayload where
  authorization : PermitAuthorization
  signature : String
deriving DecidableEq, Repr

/-- `SbcPaymentPayload` (legacy direct payment). -/
structure SbcPaymentPayload where
  signature : String
  fromAddr : String
  toAddr : String
  amount : String
  nonce : Nat
  deadline : Nat
deriving DecidableEq, Repr

/-- `TransferAuthorization` (EIP-3009). -/
structure TransferAuthorization where
  fromAddr : String
  toAddr : String
  value : String
  validAfter : Int
  validBefore : Nat
  nonce : String
deriving DecidableEq, Repr

/-- `Eip3009Payload`. -/
structure Eip3009Payload where
  signature : String
  authorization : TransferAuthorization
deriving DecidableEq, Repr

/-- `SolanaPaymentPayload` (chain-native signed message). -/
structure SolanaPaymentPayload where
  fromAddr : String
  toAddr : String
  amount : String
  nonce : String
  deadline : Nat
  signature : String
deriving DecidableEq, Repr

/-- The closed union of scheme-specific payloads. -/
inductive PaymentPayloadInner where
  | permitP (p : AuthorizationPayload)
  | sbc (p : SbcPaymentPayload)
  | eip3009 (p : Eip3009Payload)
  | solanaP (p : SolanaPaymentPayload)
deriving DecidableEq

/-- `PaymentPayload.accepted`. -/
structure AcceptedInfo where
  network : String
  scheme : String
deriving DecidableEq, Repr

/-- The outer wire payload `{ accepted, payload }`. -/
structure PaymentPayload where
  accepted : AcceptedInfo
  payload : PaymentPayloadInner
deriving DecidableEq

/-- Which signing operation ran. -/
inductive SignOp where
  | permitOp
  | sbcOp
  | transferOp
deriving DecidableEq, Repr

/-- `isSbcNetwork`: the permit-family networks. -/
def isSbcNetwork (network : String) : Bool :=
  network == "base" || network == "base-sepolia" ||
    network == "radius" || network == "radius-testnet"

/-- Model of `buildPaymentPayload`.  The result carries the trace of sign
operations that were attempted (in order) next to the produced wire payload;
`Except.error` models a propagated exception. -/
def buildPaymentPayload (requirement : PaymentRequirement)
    (permitOutcome : Except Unit AuthorizationPayload)
    (sbcOutcome : Except Unit SbcPaymentPayload)
    (transferOutcome : Except Unit Eip3009Payload) :
    Except Unit (List SignOp × PaymentPayload) :=
  if isSbcNetwork requirement.network then
    match permitOutcome with
    | .ok payload =>
      match caip2 requirement.network with
      | some net =>
        .ok ([.permitOp],
          { accepted := { network := net, scheme := requirement.scheme },
            payload := .permitP payload })
      | none => .error ()
    | .error _ =>
      match sbcOutcome with
      | .ok payload =>
        match caip2 requirement.network with
        | some net =>
          .ok ([.permitOp, .sbcOp],
            { accepted := { network := net, scheme := requirement.scheme },
              payload := .sbc payload })
        | none => .error ()
      | .error _ => .error ()
  else
    match transferOutcome with
    | .ok payload =>
      match caip2 requirement.network with
      | some net =>
        .ok ([.transferOp],
          { accepted := { network := net, scheme := requirement.scheme },
            payload := .eip3009 payload })
      | none => .error ()
    | .error _ => .error ()

/-! ### Solana signing and local verification (`src/solana/signing.ts`)

Ed25519 itself (the `tweetnacl` dependency) is modelled as an abstract
structure carrying the algebraic laws the claims rest on: verification
accepts exactly the signature of the claimed message under the claimed key,
and signatures determine the key and the message. -/

/-- The `SolanaSigner` capability: a base58 public key string and a raw
byte-message signing function. -/
structure SolanaSigner where
  publicKey : String
  sign : List Nat → List Nat

/-- Model of `constructMessage`: the canonical pipe-delimited message. -/
def constructMessage (fromAddr toAddr amount nonce : String) (deadline : Nat) : String :=
  "from:" ++ fromAddr ++ "|to:" ++ toAddr ++ "|amount:" ++ amount ++
    "|nonce:" ++ nonce ++ "|deadline:" ++ natToString deadline

/-- Model of `signSolanaPayment` (with the current time passed explicitly):
nonce is the timestamp string, deadline is `now + validForSeconds`, and the
signature is the base58 encoding of the signer's raw Ed25519 signature over
the UTF-8 message bytes. -/
def signSolanaPayment (signer : SolanaSigner) (toAddr amount : String)
    (validForSeconds now : Nat) : SolanaPaymentPayload :=
  let nonce := natToString now
  let deadline := now + validForSeconds
  let message := constructMessage signer.publicKey toAddr amount nonce deadline
  let signature := bs58encode (signer.sign (utf8Encode message))
  { fromAddr := signer.publicKey, toAddr := toAddr, amount := amount,
    nonce := nonce, deadline := deadline, signature := signature }

/-- Abstract model of Ed25519 detached signatures (`tweetnacl`):
`verify m sig pk` checks `sig` over message `m` under public key `pk`. -/
structure Ed25519Model where
  pub : Nat → List Nat
  sign : Nat → List Nat → List Nat
  verify : List Nat → List Nat → List Nat → Bool
  verify_correct : ∀ sk m, verify m (sign sk m) (pub sk) = true
  verify_sound : ∀ sk m sig, verify m sig (pub sk) = true → sig = sign sk m
  sign_inj : ∀ sk m sk' m', sign sk m = sign sk' m' → sk = sk' ∧ m = m'

/-- Model of `verifySolanaSignature`: rebuild the canonical message, decode
the base58 signature and sender key, and verify; any decoding failure
(the `try`/`catch`) yields `false`. -/
def verifySolanaSignature (E : Ed25519Model) (p : SolanaPaymentPayload) : Bool :=
  match bs58decode p.signature, bs58decode p.fromAddr with
  | some signatureBytes, some publicKeyBytes =>
    E.verify (utf8Encode (constructMessage p.fromAddr p.toAddr p.amount p.nonce p.deadline))
      signatureBytes publicKeyBytes
  | _, _ => false

/-- A signer is well-formed for key `sk` of scheme `E` when its public key
string is the base58 encoding of `pub sk`, it signs with `sign sk`, and the
scheme's keys and signatures are genuine byte arrays. -/
def SolanaSigner.wellFormed (E : Ed25519Model) (sk : Nat) (signer : SolanaSigner) : Prop :=
  signer.publicKey = bs58encode (E.pub sk) ∧
  (∀ m, signer.sign m = E.sign sk m) ∧
  (∀ x ∈ E.pub sk, x < 256) ∧
  (∀ m x, x ∈ E.sign sk m → x < 256)

/-- UTF-8 encoding is injective (a consequence of the roundtrip). -/
theorem utf8Encode_inj (s t : String) (h : utf8Encode s = utf8Encode t) : s = t := by
  have hs := utf8Decode_encode s
  rw [h, utf8Decode_encode t] at hs
  injection hs with hs
  exact hs.symm

theorem string_data_inj (s t : String) (h : s.data = t.data) : s = t := by
  rcases s with ⟨ds⟩
  rcases t with ⟨dt⟩
  simp only at h
  rw [h]

/-! ### Message injectivity and a concrete Ed25519 instance (for witnesses) -/

theorem constructMessage_amount_inj (f t a a' n : String) (d : Nat)
    (h : constructMessage f t a n d = constructMessage f t a' n d) : a = a' := by
  have hd := congrArg String.data h
  simp only [constructMessage, String.data_append, List.append_assoc] at hd
  simp only [List.append_cancel_left_eq] at hd
  have hd2 : a.data ++ ("|nonce:".data ++ (n.data ++ ("|deadline:".data ++
      (natToString d).data))) = a'.data ++ ("|nonce:".data ++ (n.data ++
      ("|deadline:".data ++ (natToString d).data))) := hd
  exact string_data_inj _ _ (List.append_cancel_right hd2)

theorem constructMessage_to_inj (f t t' a n : String) (d : Nat)
    (h : constructMessage f t a n d = constructMessage f t' a n d) : t = t' := by
  have hd := congrArg String.data h
  simp only [constructMessage, String.data_append, List.append_assoc] at hd
  simp only [List.append_cancel_left_eq] at hd
  have hd2 : t.data ++ ("|amount:".data ++ (a.data ++ ("|nonce:".data ++ (n.data ++
      ("|deadline:".data ++ (natToString d).data))))) =
      t'.data ++ ("|amount:".data ++ (a.data ++ ("|nonce:".data ++ (n.data ++
      ("|deadline:".data ++ (natToString d).data))))) := hd
  exact string_data_inj _ _ (List.append_cancel_right hd2)

theorem constructMessage_deadline_inj (f t a n : String) (d d' : Nat)
    (h : constructMessage f t a n d = constructMessage f t a n d') : d = d' := by
  have hd := congrArg String.data h
  simp only [constructMessage, String.data_append, List.append_assoc] at hd
  simp only [List.append_cancel_left_eq] at hd
  exact natToString_inj d d' (string_data_inj _ _ hd)

/-- An injective encoding of byte lists into numbers (used only to build a
concrete witness instance of `Ed25519Model`). -/
def listToNat : List Nat → Nat
  | [] => 0
  | x :: xs => Nat.pair x (listToNat xs) + 1

theorem listToNat_inj : ∀ (a b : List Nat), listToNat a = listToNat b → a = b := by
  intro a
  induction a with
  | nil =>
    intro b h
    cases b with
    | nil => rfl
    | cons y ys => simp [listToNat] at h
  | cons x xs ih =>
    intro b h
    cases b with
    | nil => simp [listToNat] at h
    | cons y ys =>
      simp only [listToNat, Nat.add_right_cancel_iff] at h
      obtain ⟨h1, h2⟩ := Nat.pair_eq_pair.mp h
      rw [h1, ih ys h2]

/-- Byte encoding of a number (big-endian-free little-endian digits). -/
def natToBytes (v : Nat) : List Nat := natToDigitsF 256 v v

theorem fromDigitsLE_natToBytes (v : Nat) : fromDigitsLE 256 (natToBytes v) = v :=
  fromDigitsLE_natToDigitsF 256 (by omega) v v le_rfl

theorem natToBytes_lt (v : Nat) : ∀ x ∈ natToBytes v, x < 256 :=
  natToDigitsF_lt 256 (by omega) v v

/-- A concrete scheme satisfying the Ed25519 laws, used to instantiate the
verification theorems at computable inputs. -/
def toyEd : Ed25519Model where
  pub := fun sk => natToBytes sk
  sign := fun sk m => natToBytes (Nat.pair sk (listToNat m))
  verify := fun m sig pk =>
    (pk == natToBytes (fromDigitsLE 256 pk)) &&
      (sig == natToBytes (Nat.pair (fromDigitsLE 256 pk) (listToNat m)))
  verify_correct := by
    intro sk m
    simp only [fromDigitsLE_natToBytes, beq_self_eq_true, Bool.and_self]
  verify_sound := by
    intro sk m sig h
    simp only [fromDigitsLE_natToBytes, Bool.and_eq_true, beq_iff_eq] at h
    exact h.2
  sign_inj := by
    intro sk m sk' m' h
    have hv := congrArg (fromDigitsLE 256) h
    rw [fromDigitsLE_natToBytes, fromDigitsLE_natToBytes] at hv
    obtain ⟨h1, h2⟩ := Nat.pair_eq_pair.mp hv
    exact ⟨h1, listToNat_inj _ _ h2⟩

/-- A concrete well-formed signer for `toyEd` with key 1. -/
def toySigner : SolanaSigner :=
  { publicKey := bs58encode (toyEd.pub 1), sign := fun m => toyEd.sign 1 m }

theorem toySigner_wellFormed : SolanaSigner.wellFormed toyEd 1 toySigner :=
  ⟨rfl, fun m => rfl, natToBytes_lt 1, fun m => natToBytes_lt _⟩

theorem isPrefixL_refl : ∀ l : List Char, isPrefixL l l = true := by
  intro l
  induction l with
  | nil => rfl
  | cons c cs ih => simp [isPrefixL, ih]

theorem containsSub_self : ∀ l : List Char, containsSub l l = true := by
  intro l
  cases l with
  | nil => rfl
  | cons c cs =>
    rw [containsSub]
    simp [isPrefixL_refl]

theorem containsSub_append_left (a b n : List Char)
    (h : containsSub b n = true) : containsSub (a ++ b) n = true := by
  induction a with
  | nil => simpa using h
  | cons x xs ih =>
    rw [List.cons_append, containsSub]
    simp [ih]

theorem toCAIP2_some (name : String) (c : NetworkConfig)
    (h : SUPPORTED_NETWORKS name = some c) :
    toCAIP2 name =
      if name = "solana" then .ok "solana:mainnet-beta"
      else if name = "solana-devnet" then .ok "solana:devnet"
      else .ok ("eip155:" ++ natToString c.chainId) := by
  rw [toCAIP2, h]

/-! ## Claim theorems -/

/-- C10: For every string `s`, `fromBase64 (toBase64 s) = s` for the base64
helpers used for the payment header, the requirements header and the
confirmation header — an encoded payload decodes to the identical text on
the other side. -/
theorem base64_header_roundtrip (s : String) : fromBase64 (toBase64 s) = some s := by
  rw [toBase64, fromBase64]
  have hdata : (String.mk (b64EncodeBytes (utf8Encode s))).data =
      b64EncodeBytes (utf8Encode s) := rfl
  rw [hdata, b64DecodeBytes_encode (utf8Encode s) (utf8EncodeL_lt s.data)]
  exact utf8Decode_encode s

/-- C7: the decimal-to-atomic conversion splits on the decimal point,
truncates or right-pads the fraction to the precision, concatenates, strips
leading zeros (empty maps to zero): on digit strings its value is
`int * 10 ^ d + truncatedPaddedFraction`, and the two documented examples
hold: `"0.001"` at 18 decimals is `1000000000000000`, `"1.0"` at 9 decimals
is `1000000000`. -/
theorem usdToAtomic_spec :
    (∀ (i f : List Char) (d : Nat), '.' ∉ i → '.' ∉ f →
      usdToAtomic (String.mk (i ++ '.' :: f)) d =
        decValL i * 10 ^ d + decValL (truncOrPad f d)) ∧
    usdToAtomic "0.001" 18 = 1000000000000000 ∧
    usdToAtomic "1.0" 9 = 1000000000 ∧
    usdToAtomic "" 5 = 0 ∧
    usdToAtomic "0.123456" 3 = 123 ∧
    usdToAtomic "00012" 0 = 12 := by
  refine ⟨usdToAtomic_split, ?_, ?_, ?_, ?_, ?_⟩ <;> decide

/-- C7 witness: the characterisation applied at the concrete input
`"2.5"` with 3 decimals. -/
theorem usdToAtomic_spec_witness :
    usdToAtomic (String.mk ("2".data ++ '.' :: "5".data)) 3 =
      decValL "2".data * 10 ^ 3 + decValL (truncOrPad "5".data 3) :=
  usdToAtomic_spec.1 "2".data "5".data 3 (by decide) (by decide)

/-- C8: every supported network name resolves and has a canonical chain
address; the two Solana networks are special-cased (`solana:mainnet-beta` /
`solana:devnet`, not derived from their chain id 0); every other supported
network maps to `eip155:<chainId>`; and an unknown name fails with an error
message that contains every valid network name. -/
theorem network_registry_spec :
    (∀ name ∈ supportedNetworkNames,
      (∃ c, getNetworkConfig name = .ok c) ∧ ∃ s, toCAIP2 name = .ok s) ∧
    toCAIP2 "solana" = .ok "solana:mainnet-beta" ∧
    toCAIP2 "solana-devnet" = .ok "solana:devnet" ∧
    (∃ c, getNetworkConfig "solana" = .ok c ∧ c.chainId = 0) ∧
    (∃ c, getNetworkConfig "solana-devnet" = .ok c ∧ c.chainId = 0) ∧
    (∀ name c, name ≠ "solana" → name ≠ "solana-devnet" →
      SUPPORTED_NETWORKS name = some c →
      toCAIP2 name = .ok ("eip155:" ++ natToString c.chainId)) ∧
    (∀ name, SUPPORTED_NETWORKS name = none →
      getNetworkConfig name =
        .error ("Unsupported network: \"" ++ name ++ "\". Supported: " ++
          String.intercalate ", " supportedNetworkNames) ∧
      ∀ valid ∈ supportedNetworkNames,
        jsIncludes ("Unsupported network: \"" ++ name ++ "\". Supported: " ++
          String.intercalate ", " supportedNetworkNames) valid = true) := by
  refine ⟨?_, rfl, rfl, ⟨_, rfl, rfl⟩, ⟨_, rfl, rfl⟩, ?_, ?_⟩
  · intro name hname
    fin_cases hname <;> exact ⟨⟨_, rfl⟩, ⟨_, rfl⟩⟩
  · intro name c h1 h2 hc
    rw [toCAIP2_some name c hc, if_neg h1, if_neg h2]
  · intro name hnone
    constructor
    · rw [getNetworkConfig, hnone]
    · intro valid hvalid
      rw [jsIncludes]
      have hsuffix : containsSub (String.intercalate ", " supportedNetworkNames).data
          valid.data = true := by
        fin_cases hvalid <;> decide
      have hdata : ("Unsupported network: \"" ++ name ++ "\". Supported: " ++
          String.intercalate ", " supportedNetworkNames).data =
          ("Unsupported network: \"" ++ name ++ "\". Supported: ").data ++
            (String.intercalate ", " supportedNetworkNames).data := by
        simp [String.data_append]
      rw [hdata]
      exact containsSub_append_left _ _ _ hsuffix

/-- C8 witness: the unknown name `"bogus"` fails with the
full-list error message. -/
theorem network_registry_spec_witness :
    getNetworkConfig "bogus" =
      .error ("Unsupported network: \"" ++ "bogus" ++ "\". Supported: " ++
        String.intercalate ", " supportedNetworkNames) ∧
    ∀ valid ∈ supportedNetworkNames,
      jsIncludes ("Unsupported network: \"" ++ "bogus" ++ "\". Supported: " ++
        String.intercalate ", " supportedNetworkNames) valid = true :=
  network_registry_spec.2.2.2.2.2.2 "bogus" (by decide)

/-- Demo options for the retry examples: initial delay 100, multiplier 2,
other fields default (`maxDelay` 10000, 3 attempts). -/
def retryDemoOptions : RetryOptions :=
  { maxAttempts := none, initialDelay := some 100, maxDelay := none,
    backoffMultiplier := some 2, retryableErrors := none }

/-- An attempt oracle that always fails with a retryable error. -/
def retryDemoOutcomes : Nat → Except JsError Unit :=
  fun _ => .error { name := "Error", message := "socket ETIMEDOUT" }

/-- Options exhibiting an initial delay above the cap. -/
def retryCapOptions : RetryOptions :=
  { maxAttempts := some 3, initialDelay := some 200, maxDelay := some 100,
    backoffMultiplier := some 2, retryableErrors := some ["X"] }

/-- An attempt oracle failing with an error retryable under `["X"]`. -/
def retryCapOutcomes : Nat → Except JsError Unit :=
  fun _ => .error { name := "X", message := "X" }

/-- C2 counterexample: with initial delay 200 and maxDelay 100 the very
first awaited delay is 200, which exceeds maxDelay — the claim "no awaited
delay ever exceeds maxDelay regardless of the chosen d, m, M" is false on
the code (the source never caps the initial delay). -/
theorem withRetry_first_delay_exceeds_cap :
    (withRetry retryCapOptions retryCapOutcomes).1 = [200, 100] ∧
    (mergeRetryOptions retryCapOptions).maxDelay = 100 ∧
    (withRetry retryCapOptions retryCapOutcomes).1.all
      (fun x => x ≤ (mergeRetryOptions retryCapOptions).maxDelay) = false := by
  refine ⟨?_, ?_, ?_⟩ <;> decide

/-- C2 (amended): provided the initial delay does not exceed `maxDelay`, the
delay awaited before attempt `n+1` (attempts counted from 0) is
`min (initialDelay * multiplier ^ n) maxDelay`, no awaited delay exceeds
`maxDelay`, and no delay occurs after the final attempt; the first awaited
delay is always exactly `initialDelay`, uncapped. -/
theorem withRetry_backoff_spec {T : Type} (options : RetryOptions)
    (outcomes : Nat → Except JsError T)
    (hcap : (mergeRetryOptions options).initialDelay ≤
      (mergeRetryOptions options).maxDelay) :
    (∀ i x, (withRetry options outcomes).1.get? i = some x →
      x = min ((mergeRetryOptions options).initialDelay *
          (mergeRetryOptions options).backoffMultiplier ^ i)
        (mergeRetryOptions options).maxDelay) ∧
    (∀ x ∈ (withRetry options outcomes).1,
      x ≤ (mergeRetryOptions options).maxDelay) ∧
    ((withRetry options outcomes).1.length + 1 ≤
      max (mergeRetryOptions options).maxAttempts 1) ∧
    (∀ x, (withRetry options outcomes).1.get? 0 = some x →
      x = (mergeRetryOptions options).initialDelay) := by
  refine ⟨?_, ?_, ?_, ?_⟩
  · intro i x hx
    have h1 := withRetryGo_delays (mergeRetryOptions options) outcomes
      (mergeRetryOptions options).maxAttempts 1
      (mergeRetryOptions options).initialDelay i x hx
    rw [h1]
    exact backoffIter_closed (mergeRetryOptions options).backoffMultiplier
      (mergeRetryOptions options).maxDelay i
      (mergeRetryOptions options).initialDelay hcap
  · intro x hx
    obtain ⟨i, hi⟩ := List.get?_of_mem hx
    have h1 := withRetryGo_delays (mergeRetryOptions options) outcomes
      (mergeRetryOptions options).maxAttempts 1
      (mergeRetryOptions options).initialDelay i x hi
    rw [h1, backoffIter_closed _ _ i _ hcap]
    omega
  · exact withRetryGo_length (mergeRetryOptions options) outcomes
      (mergeRetryOptions options).maxAttempts 1
      (mergeRetryOptions options).initialDelay
  · intro x hx
    have h1 := withRetryGo_delays (mergeRetryOptions options) outcomes
      (mergeRetryOptions options).maxAttempts 1
      (mergeRetryOptions options).initialDelay 0 x hx
    rw [h1]
    rfl

/-- C2 witness: with initial delay 100 and multiplier 2 the second awaited
delay is exactly 200 = `min (100 * 2 ^ 1) 10000`. -/
theorem withRetry_backoff_spec_witness :
    (withRetry retryDemoOptions retryDemoOutcomes).1.get? 1 = some 200 ∧
    200 = min (100 * 2 ^ 1) 10000 := by
  refine ⟨by decide, ?_⟩
  exact (withRetry_backoff_spec retryDemoOptions retryDemoOutcomes
    (by decide)).1 1 200 (by decide)

theorem fetchWithTimeout_err (timeoutMs : Nat)
    (transport : Nat → Except JsError HttpResponse) (e : JsError)
    (h : transport timeoutMs = .error e) :
    fetchWithTimeout timeoutMs transport =
      if e.name = "AbortError" then .error (PaymentTimeoutError "Facilitator request")
      else .error e := by
  rw [fetchWithTimeout, h]

/-- C9: a `PaymentTimeoutError` from an aborted facilitator request is
surfaced at once — the 3-attempt retry budget consumes a single attempt and
awaits no delay — because neither the name `"PaymentTimeoutError"` nor the
message `"Facilitator request timed out"` contains any of the default
retryable tokens under case-sensitive substring matching. -/
theorem facilitator_timeout_not_retried (state : FacilitatorClientState)
    (transports : Nat → Nat → Except JsError HttpResponse)
    (parseJson : String → Option VerifyResponse) (e : JsError)
    (habort : transports 1 state.timeoutMs = .error e)
    (hname : e.name = "AbortError") :
    FacilitatorClient.verify state transports parseJson =
      ([], .error (some (PaymentTimeoutError "Facilitator request"))) ∧
    (PaymentTimeoutError "Facilitator request").name = "PaymentTimeoutError" ∧
    (PaymentTimeoutError "Facilitator request").message =
      "Facilitator request timed out" ∧
    (∀ tok ∈ defaultRetryableErrors,
      jsIncludes "PaymentTimeoutError" tok = false ∧
      jsIncludes "Facilitator request timed out" tok = false) := by
  have hattempt : verifyAttempt state.timeoutMs (transports 1) parseJson =
      .error (PaymentTimeoutError "Facilitator request") := by
    rw [verifyAttempt, fetchWithTimeout_err state.timeoutMs (transports 1) e habort,
      if_pos hname]
  refine ⟨?_, rfl, rfl, by decide⟩
  show withRetryGo (mergeRetryOptions { maxAttempts := some 3 })
      (fun attempt => verifyAttempt state.timeoutMs (transports attempt) parseJson)
      (mergeRetryOptions { maxAttempts := some 3 }).maxAttempts 1
      (mergeRetryOptions { maxAttempts := some 3 }).initialDelay = _
  have hmax : (mergeRetryOptions { maxAttempts := some 3 }).maxAttempts = 2 + 1 := rfl
  rw [hmax, withRetryGo_succ_err _ _ 2 1 _ _ hattempt, if_pos]
  left
  decide

/-- C9 witness: the theorem applied to a concrete aborting transport. -/
theorem facilitator_timeout_not_retried_witness :
    FacilitatorClient.verify
        { overrideUrl := none, timeoutMs := 30000, apiKey := none }
        (fun _ _ => .error { name := "AbortError", message := "This operation was aborted" })
        (fun _ => none) =
      ([], .error (some (PaymentTimeoutError "Facilitator request"))) :=
  (facilitator_timeout_not_retried
    { overrideUrl := none, timeoutMs := 30000, apiKey := none }
    (fun _ _ => .error { name := "AbortError", message := "This operation was aborted" })
    (fun _ => none)
    { name := "AbortError", message := "This operation was aborted" }
    rfl rfl).1

theorem verifyAttempt_ok (t : Nat) (transport : Nat → Except JsError HttpResponse)
    (parseJson : String → Option VerifyResponse) (r : HttpResponse)
    (h : fetchWithTimeout t transport = .ok r) :
    verifyAttempt t transport parseJson =
      if r.ok then
        match parseJson r.body with
        | some v => .ok v
        | none =>
          .error (FacilitatorError "Facilitator verify returned non-JSON response"
            (some r.status))
      else
        .error (FacilitatorError ("Facilitator verify failed: " ++ r.body)
          (some r.status)) := by
  rw [verifyAttempt, h]

/-- C6: every facilitator call runs under the caller-set timeout (default
30000 ms); a transport cancellation (`AbortError`) surfaces as
`PaymentTimeoutError` rather than the raw transport error (any other
transport error is re-thrown unchanged); and a non-2xx HTTP response fails
with a `FacilitatorError` whose `statusCode` is the HTTP status and whose
message contains the response body text. -/
theorem facilitator_error_mapping (options : FacilitatorClientOptions)
    (t : Nat) (transport : Nat → Except JsError HttpResponse)
    (parseJson : String → Option VerifyResponse) (e : JsError) (r : HttpResponse) :
    ((FacilitatorClient.init options).timeoutMs = options.timeoutMs.getD 30000) ∧
    (options.timeoutMs = none → (FacilitatorClient.init options).timeoutMs = 30000) ∧
    (∀ state transports,
      FacilitatorClient.verify state transports parseJson =
        withRetry { maxAttempts := some 3 }
          (fun attempt => verifyAttempt state.timeoutMs (transports attempt) parseJson)) ∧
    (transport t = .error e → e.name = "AbortError" →
      fetchWithTimeout t transport = .error (PaymentTimeoutError "Facilitator request")) ∧
    (transport t = .error e → e.name ≠ "AbortError" →
      fetchWithTimeout t transport = .error e) ∧
    (transport t = .ok r → r.ok = false →
      verifyAttempt t transport parseJson =
        .error (FacilitatorError ("Facilitator verify failed: " ++ r.body)
          (some r.status))) ∧
    ((FacilitatorError ("Facilitator verify failed: " ++ r.body)
        (some r.status)).statusCode = some r.status) ∧
    (jsIncludes (FacilitatorError ("Facilitator verify failed: " ++ r.body)
        (some r.status)).message r.body = true) := by
  refine ⟨rfl, ?_, ?_, ?_, ?_, ?_, rfl, ?_⟩
  · intro h
    rw [FacilitatorClient.init]
    rw [h]
    rfl
  · intro state transports
    rfl
  · intro htr hn
    rw [fetchWithTimeout_err t transport e htr, if_pos hn]
  · intro htr hn
    rw [fetchWithTimeout_err t transport e htr, if_neg hn]
  · intro htr hok
    have hfetch : fetchWithTimeout t transport = .ok r := by
      rw [fetchWithTimeout, htr]
    rw [verifyAttempt_ok t transport parseJson r hfetch, hok]
    rfl
  · show jsIncludes ("Facilitator verify failed: " ++ r.body) r.body = true
    rw [jsIncludes]
    have hdata : ("Facilitator verify failed: " ++ r.body).data =
        ("Facilitator verify failed: ").data ++ r.body.data := by
      simp [String.data_append]
    rw [hdata]
    exact containsSub_append_left _ _ _ (containsSub_self r.body.data)

/-- C6 witness: a concrete aborting transport maps to `PaymentTimeoutError`,
and a concrete 500 response maps to a `FacilitatorError` carrying the status
and the body. -/
theorem facilitator_error_mapping_witness :
    fetchWithTimeout 30000
        (fun _ => .error { name := "AbortError", message := "aborted" }) =
      .error (PaymentTimeoutError "Facilitator request") ∧
    verifyAttempt 30000 (fun _ => .ok { status := 500, body := "boom" })
        (fun _ => none) =
      .error (FacilitatorError ("Facilitator verify failed: " ++ "boom") (some 500)) := by
  constructor
  · exact (facilitator_error_mapping {} 30000
      (fun _ => .error { name := "AbortError", message := "aborted" }) (fun _ => none)
      { name := "AbortError", message := "aborted" } { status := 500, body := "boom" }
      ).2.2.2.1 rfl rfl
  · exact (facilitator_error_mapping {} 30000
      (fun _ => .ok { status := 500, body := "boom" }) (fun _ => none)
      { name := "AbortError", message := "aborted" } { status := 500, body := "boom" }
      ).2.2.2.2.2.1 rfl rfl

theorem selectRequirement_cases (requirements : List PaymentRequirement)
    (preferredNetwork maxAmount : Option String) :
    selectRequirement requirements preferredNetwork maxAmount =
      if (survivingOffers requirements maxAmount).isEmpty then none
      else
        match preferredPick (survivingOffers requirements maxAmount) preferredNetwork with
        | some r => some r
        | none =>
          match (survivingOffers requirements maxAmount).find? isTestnetOffer with
          | some testnet => some testnet
          | none => minByAmount (survivingOffers requirements maxAmount) := by
  rw [selectRequirement]

theorem preferredPick_mem (filtered : List PaymentRequirement)
    (preferredNetwork : Option String) (r : PaymentRequirement)
    (h : preferredPick filtered preferredNetwork = some r) : r ∈ filtered := by
  rcases preferredNetwork with _ | p
  · simp [preferredPick] at h
  · rw [preferredPick] at h
    split at h
    · exact List.mem_of_find?_eq_some h
    · simp at h

/-- C3: the selector keeps only offers on recognised networks, then (when a
budget was given) only offers at or below the budget in atomic units at the
network's precision; it returns `none` (not an error) exactly when nothing
survives; a chosen offer is always a survivor; a (non-empty) explicitly
preferred network with a survivor is chosen unconditionally; otherwise a
test-network survivor is chosen if one exists; otherwise the survivor with
the numerically smallest required atomic amount. -/
theorem selectRequirement_spec (requirements : List PaymentRequirement)
    (preferredNetwork maxAmount : Option String) :
    (selectRequirement requirements preferredNetwork maxAmount = none ↔
      survivingOffers requirements maxAmount = []) ∧
    (∀ r, selectRequirement requirements preferredNetwork maxAmount = some r →
      r ∈ survivingOffers requirements maxAmount ∧
        (SUPPORTED_NETWORKS r.network).isSome = true) ∧
    (∀ p r0, preferredNetwork = some p → p ≠ "" →
      r0 ∈ survivingOffers requirements maxAmount → r0.network = p →
      ∃ r, selectRequirement requirements preferredNetwork maxAmount = some r ∧
        r.network = p) ∧
    (preferredPick (survivingOffers requirements maxAmount) preferredNetwork = none →
      ∀ r0, r0 ∈ survivingOffers requirements maxAmount → isTestnetOffer r0 = true →
      ∃ r, selectRequirement requirements preferredNetwork maxAmount = some r ∧
        isTestnetOffer r = true) ∧
    (preferredPick (survivingOffers requirements maxAmount) preferredNetwork = none →
      (survivingOffers requirements maxAmount).find? isTestnetOffer = none →
      survivingOffers requirements maxAmount ≠ [] →
      ∃ r, selectRequirement requirements preferredNetwork maxAmount = some r ∧
        ∀ x ∈ survivingOffers requirements maxAmount,
          decVal r.maxAmountRequired ≤ decVal x.maxAmountRequired) := by
  have hmemS : ∀ r, r ∈ survivingOffers requirements maxAmount →
      (SUPPORTED_NETWORKS r.network).isSome = true := by
    intro r hr
    rcases maxAmount with _ | ma
    · rw [survivingOffers_none] at hr
      simpa using (List.mem_filter.mp hr).2
    · rw [survivingOffers_some] at hr
      split at hr
      · simpa using (List.mem_filter.mp (List.mem_of_mem_filter hr)).2
      · simpa using (List.mem_filter.mp hr).2
  refine ⟨?_, ?_, ?_, ?_, ?_⟩
  · constructor
    · intro hnone
      by_contra hne
      rw [selectRequirement_cases] at hnone
      rw [if_neg (by simpa using hne)] at hnone
      rcases hpp : preferredPick (survivingOffers requirements maxAmount)
          preferredNetwork with _ | r
      · rw [hpp] at hnone
        rcases htn : (survivingOffers requirements maxAmount).find? isTestnetOffer
            with _ | t
        · rw [htn] at hnone
          obtain ⟨m, hm⟩ := minByAmount_isSome _ hne
          rw [hm] at hnone
          exact absurd hnone (by simp)
        · rw [htn] at hnone
          exact absurd hnone (by simp)
      · rw [hpp] at hnone
        exact absurd hnone (by simp)
    · intro hS
      rw [selectRequirement_cases, hS]
      rfl
  · intro r hr
    have hrS : r ∈ survivingOffers requirements maxAmount := by
      rw [selectRequirement_cases] at hr
      by_cases hS : (survivingOffers requirements maxAmount).isEmpty
      · rw [if_pos hS] at hr
        exact absurd hr (by simp)
      · rw [if_neg hS] at hr
        rcases hpp : preferredPick (survivingOffers requirements maxAmount)
            preferredNetwork with _ | r'
        · rw [hpp] at hr
          rcases htn : (survivingOffers requirements maxAmount).find? isTestnetOffer
              with _ | t
          · rw [htn] at hr
            exact minByAmount_mem _ r hr
          · rw [htn] at hr
            injection hr with hr
            rw [← hr]
            exact List.mem_of_find?_eq_some htn
        · rw [hpp] at hr
          injection hr with hr
          rw [← hr]
          exact preferredPick_mem _ _ _ hpp
    exact ⟨hrS, hmemS r hrS⟩
  · intro p r0 hpn hp hr0 hnet
    have hne : survivingOffers requirements maxAmount ≠ [] := by
      intro h0
      rw [h0] at hr0
      simp at hr0
    have hfind : ∃ r', (survivingOffers requirements maxAmount).find?
        (fun r => r.network == p) = some r' := by
      rcases hf : (survivingOffers requirements maxAmount).find?
          (fun r => r.network == p) with _ | r'
      · rw [List.find?_eq_none] at hf
        exact absurd (by simpa using hnet) (hf r0 hr0)
      · exact ⟨r', hf⟩
    obtain ⟨r', hr'⟩ := hfind
    have hpp : preferredPick (survivingOffers requirements maxAmount)
        preferredNetwork = some r' := by
      rw [hpn, preferredPick, if_pos hp, hr']
    refine ⟨r', ?_, ?_⟩
    · rw [selectRequirement_cases, if_neg (by simpa using hne), hpp]
    · have := List.find?_some hr'
      simpa using this
  · intro hpp r0 hr0 htest
    have hne : survivingOffers requirements maxAmount ≠ [] := by
      intro h0
      rw [h0] at hr0
      simp at hr0
    have hfind : ∃ t, (survivingOffers requirements maxAmount).find?
        isTestnetOffer = some t := by
      rcases hf : (survivingOffers requirements maxAmount).find? isTestnetOffer
          with _ | t
      · rw [List.find?_eq_none] at hf
        exact absurd htest (by simpa using hf r0 hr0)
      · exact ⟨t, rfl⟩
    obtain ⟨t, ht⟩ := hfind
    refine ⟨t, ?_, List.find?_some ht⟩
    rw [selectRequirement_cases, if_neg (by simpa using hne), hpp, ht]
  · intro hpp htn hne
    obtain ⟨m, hm⟩ := minByAmount_isSome _ hne
    refine ⟨m, ?_, minByAmount_min _ m hm⟩
    rw [selectRequirement_cases, if_neg (by simpa using hne), hpp, htn, hm]

/-- A demo test-network offer: base-sepolia at 100 atomic units. -/
def demoSepoliaOffer : PaymentRequirement :=
  { scheme := "exact", network := "base-sepolia", maxAmountRequired := "100",
    resource := "/premium", payTo := "0xA", asset := "0xS", maxTimeoutSeconds := 300 }

/-- A demo mainnet offer: base at 50 atomic units (cheaper). -/
def demoBaseOffer : PaymentRequirement :=
  { scheme := "exact", network := "base", maxAmountRequired := "50",
    resource := "/premium", payTo := "0xA", asset := "0xB", maxTimeoutSeconds := 300 }

/-- C3 witness: with offers `{base-sepolia: 100, base: 50}`, an explicit
`base` preference picks `base` regardless of price, and no preference picks
the test-network offer over the cheaper mainnet one. -/
theorem selectRequirement_spec_witness :
    (∃ r, selectRequirement [demoSepoliaOffer, demoBaseOffer] (some "base") none =
        some r ∧ r.network = "base") ∧
    (∃ r, selectRequirement [demoSepoliaOffer, demoBaseOffer] none none = some r ∧
      isTestnetOffer r = true) := by
  constructor
  · exact (selectRequirement_spec [demoSepoliaOffer, demoBaseOffer]
      (some "base") none).2.2.1 "base" demoBaseOffer rfl (by decide) (by decide) rfl
  · exact (selectRequirement_spec [demoSepoliaOffer, demoBaseOffer]
      none none).2.2.2.1 rfl demoSepoliaOffer (by decide) (by decide)

/-- C5: for a requirement on a permit-family network (`base`, `base-sepolia`,
`radius`, `radius-testnet`) the builder attempts a Permit authorization
first, and on any signing failure falls back to a direct-payment (SBC
Payment) authorization on the same network; on every other network it builds
a transfer-with-authorization payload; and every successful build wraps the
scheme payload as `{ accepted: { network: canonical chain address, scheme },
payload }`. -/
theorem buildPaymentPayload_spec (requirement : PaymentRequirement)
    (permitOutcome : Except Unit AuthorizationPayload)
    (sbcOutcome : Except Unit SbcPaymentPayload)
    (transferOutcome : Except Unit Eip3009Payload)
    (net : String) (hnet : caip2 requirement.network = some net) :
    (isSbcNetwork requirement.network = true →
      (∀ p, permitOutcome = .ok p →
        buildPaymentPayload requirement permitOutcome sbcOutcome transferOutcome =
          .ok ([.permitOp],
            { accepted := { network := net, scheme := requirement.scheme },
              payload := .permitP p })) ∧
      (∀ q, permitOutcome = .error () → sbcOutcome = .ok q →
        buildPaymentPayload requirement permitOutcome sbcOutcome transferOutcome =
          .ok ([.permitOp, .sbcOp],
            { accepted := { network := net, scheme := requirement.scheme },
              payload := .sbc q }))) ∧
    (isSbcNetwork requirement.network = false →
      ∀ q, transferOutcome = .ok q →
        buildPaymentPayload requirement permitOutcome sbcOutcome transferOutcome =
          .ok ([.transferOp],
            { accepted := { network := net, scheme := requirement.scheme },
              payload := .eip3009 q })) ∧
    (∀ trace outPayload,
      buildPaymentPayload requirement permitOutcome sbcOutcome transferOutcome =
        .ok (trace, outPayload) →
      outPayload.accepted = { network := net, scheme := requirement.scheme } ∧
      (isSbcNetwork requirement.network = true → trace.head? = some SignOp.permitOp) ∧
      (isSbcNetwork requirement.network = false →
        trace.head? = some SignOp.transferOp)) := by
  refine ⟨?_, ?_, ?_⟩
  · intro hsbc
    constructor
    · intro p hp
      rw [buildPaymentPayload.eq_def, if_pos hsbc, hp, hnet]
    · intro q hp hq
      rw [buildPaymentPayload.eq_def, if_pos hsbc, hp, hq, hnet]
  · intro hsbc q hq
    rw [buildPaymentPayload.eq_def, if_neg (by simp [hsbc]), hq, hnet]
  · intro trace outPayload hbuild
    rw [buildPaymentPayload.eq_def] at hbuild
    by_cases hsbc : isSbcNetwork requirement.network = true
    · rw [if_pos hsbc] at hbuild
      have hres : outPayload.accepted =
          { network := net, scheme := requirement.scheme } ∧
          trace.head? = some SignOp.permitOp := by
        rcases permitOutcome with _ | p
        · rcases sbcOutcome with _ | q
          · exact absurd hbuild (by simp)
          · rw [hnet] at hbuild
            injection hbuild with hbuild
            injection hbuild with h1 h2
            rw [← h2, ← h1]
            exact ⟨rfl, rfl⟩
        · rw [hnet] at hbuild
          injection hbuild with hbuild
          injection hbuild with h1 h2
          rw [← h2, ← h1]
          exact ⟨rfl, rfl⟩
      exact ⟨hres.1, fun _ => hres.2, fun hc => absurd hsbc (by simp [hc])⟩
    · have hsbc2 : isSbcNetwork requirement.network = false := by
        rcases h : isSbcNetwork requirement.network with _ | _
        · rfl
        · exact absurd h hsbc
      rw [if_neg (by simp [hsbc2])] at hbuild
      have hres : outPayload.accepted =
          { network := net, scheme := requirement.scheme } ∧
          trace.head? = some SignOp.transferOp := by
        rcases transferOutcome with _ | q
        · exact absurd hbuild (by simp)
        · rw [hnet] at hbuild
          injection hbuild with hbuild
          injection hbuild with h1 h2
          rw [← h2, ← h1]
          exact ⟨rfl, rfl⟩
      exact ⟨hres.1, fun hc => absurd hc hsbc, fun _ => hres.2⟩

/-- A demo requirement on the permit-family network `base`. -/
def demoPermitRequirement : PaymentRequirement :=
  { scheme := "exact", network := "base", maxAmountRequired := "1000000",
    resource := "/premium", payTo := "0xB", asset := "0xA", maxTimeoutSeconds := 300 }

/-- A demo fallback SBC payment payload. -/
def demoSbcPayload : SbcPaymentPayload :=
  { signature := "0xsig", fromAddr := "0xF", toAddr := "0xB", amount := "1000000",
    nonce := 1700000000, deadline := 1700000300 }

/-- C5 witness: on `base`, a failed permit signing falls back to the SBC
payment payload, wrapped with the canonical chain address `eip155:8453`. -/
theorem buildPaymentPayload_spec_witness :
    buildPaymentPayload demoPermitRequirement (.error ()) (.ok demoSbcPayload)
        (.error ()) =
      .ok ([.permitOp, .sbcOp],
        { accepted := { network := "eip155:8453", scheme := "exact" },
          payload := .sbc demoSbcPayload }) :=
  ((buildPaymentPayload_spec demoPermitRequirement (.error ()) (.ok demoSbcPayload)
    (.error ()) "eip155:8453" (by decide)).1 (by decide)).2 demoSbcPayload rfl rfl

theorem verifySolanaSignature_eq (E : Ed25519Model) (p : SolanaPaymentPayload)
    (sig pk : List Nat) (h1 : bs58decode p.signature = some sig)
    (h2 : bs58decode p.fromAddr = some pk) :
    verifySolanaSignature E p =
      E.verify (utf8Encode (constructMessage p.fromAddr p.toAddr p.amount p.nonce
        p.deadline)) sig pk := by
  rw [verifySolanaSignature, h1, h2]

theorem verifySolanaSignature_sig_none (E : Ed25519Model) (p : SolanaPaymentPayload)
    (h : bs58decode p.signature = none) : verifySolanaSignature E p = false := by
  rcases h2 : bs58decode p.fromAddr with _ | pk <;> rw [verifySolanaSignature, h, h2]

theorem verifySolanaSignature_from_none (E : Ed25519Model) (p : SolanaPaymentPayload)
    (h : bs58decode p.fromAddr = none) : verifySolanaSignature E p = false := by
  rcases h1 : bs58decode p.signature with _ | sig <;> rw [verifySolanaSignature, h1, h]

theorem verifySolanaSignature_false_of (E : Ed25519Model) (p : SolanaPaymentPayload)
    (sig pk : List Nat) (h1 : bs58decode p.signature = some sig)
    (h2 : bs58decode p.fromAddr = some pk)
    (h3 : E.verify (utf8Encode (constructMessage p.fromAddr p.toAddr p.amount
      p.nonce p.deadline)) sig pk = false) :
    verifySolanaSignature E p = false := by
  rw [verifySolanaSignature_eq E p sig pk h1 h2]
  exact h3

/-- C4: for every payload produced by `signSolanaPayment` with a well-formed
Ed25519 signer, local verification returns `true`; it returns `false` —
never throwing (the function is total and `none`-decodes are handled) — when
the amount, recipient or deadline was mutated after signing, when the
signature was produced by a different key than the claimed sender, and when
the signature or sender address is malformed base-58 input. -/
theorem solana_sign_verify_spec (E : Ed25519Model) (sk sk' : Nat)
    (signer signer' : SolanaSigner)
    (hwf : SolanaSigner.wellFormed E sk signer)
    (hwf' : SolanaSigner.wellFormed E sk' signer')
    (toAddr amount : String) (validForSeconds now : Nat) :
    (verifySolanaSignature E
      (signSolanaPayment signer toAddr amount validForSeconds now) = true) ∧
    (∀ amount', amount' ≠ amount →
      verifySolanaSignature E
        { signSolanaPayment signer toAddr amount validForSeconds now with
            amount := amount' } = false) ∧
    (∀ toAddr', toAddr' ≠ toAddr →
      verifySolanaSignature E
        { signSolanaPayment signer toAddr amount validForSeconds now with
            toAddr := toAddr' } = false) ∧
    (∀ deadline', deadline' ≠ now + validForSeconds →
      verifySolanaSignature E
        { signSolanaPayment signer toAddr amount validForSeconds now with
            deadline := deadline' } = false) ∧
    (sk' ≠ sk →
      verifySolanaSignature E
        { signSolanaPayment signer' toAddr amount validForSeconds now with
            fromAddr := signer.publicKey } = false) ∧
    (∀ p : SolanaPaymentPayload, bs58decode p.signature = none →
      verifySolanaSignature E p = false) ∧
    (∀ p : SolanaPaymentPayload, bs58decode p.fromAddr = none →
      verifySolanaSignature E p = false) ∧
    bs58decode "0OIl" = none := by
  obtain ⟨hpub, hsign, hpubBytes, hsignBytes⟩ := hwf
  obtain ⟨hpub', hsign', hpubBytes', hsignBytes'⟩ := hwf'
  have hsig_decode : bs58decode
      (signSolanaPayment signer toAddr amount validForSeconds now).signature =
      some (E.sign sk (utf8Encode (constructMessage signer.publicKey toAddr amount
        (natToString now) (now + validForSeconds)))) := by
    show bs58decode (bs58encode (signer.sign (utf8Encode (constructMessage
      signer.publicKey toAddr amount (natToString now) (now + validForSeconds))))) = _
    rw [hsign]
    exact bs58decode_encode _ (fun x hx => hsignBytes _ x hx)
  have hfrom_decode : bs58decode
      (signSolanaPayment signer toAddr amount validForSeconds now).fromAddr =
      some (E.pub sk) := by
    show bs58decode signer.publicKey = _
    rw [hpub]
    exact bs58decode_encode _ hpubBytes
  refine ⟨?_, ?_, ?_, ?_, ?_, verifySolanaSignature_sig_none E,
    verifySolanaSignature_from_none E, by decide⟩
  · rw [verifySolanaSignature_eq E _ _ _ hsig_decode hfrom_decode]
    exact E.verify_correct sk _
  · intro amount' hne
    refine verifySolanaSignature_false_of E _ _ _ hsig_decode hfrom_decode ?_
    show E.verify (utf8Encode (constructMessage signer.publicKey toAddr amount'
        (natToString now) (now + validForSeconds)))
      (E.sign sk (utf8Encode (constructMessage signer.publicKey toAddr amount
        (natToString now) (now + validForSeconds)))) (E.pub sk) = false
    rcases hcase : E.verify (utf8Encode (constructMessage signer.publicKey toAddr
        amount' (natToString now) (now + validForSeconds)))
      (E.sign sk (utf8Encode (constructMessage signer.publicKey toAddr amount
        (natToString now) (now + validForSeconds)))) (E.pub sk) with _ | _
    · rfl
    · exfalso
      have hs := E.verify_sound sk _ _ hcase
      obtain ⟨_, hmeq⟩ := E.sign_inj _ _ _ _ hs
      have hmsg := utf8Encode_inj _ _ hmeq
      exact hne (constructMessage_amount_inj signer.publicKey toAddr amount amount'
        (natToString now) (now + validForSeconds) hmsg).symm
  · intro toAddr' hne
    refine verifySolanaSignature_false_of E _ _ _ hsig_decode hfrom_decode ?_
    show E.verify (utf8Encode (constructMessage signer.publicKey toAddr' amount
        (natToString now) (now + validForSeconds)))
      (E.sign sk (utf8Encode (constructMessage signer.publicKey toAddr amount
        (natToString now) (now + validForSeconds)))) (E.pub sk) = false
    rcases hcase : E.verify (utf8Encode (constructMessage signer.publicKey toAddr'
        amount (natToString now) (now + validForSeconds)))
      (E.sign sk (utf8Encode (constructMessage signer.publicKey toAddr amount
        (natToString now) (now + validForSeconds)))) (E.pub sk) with _ | _
    · rfl
    · exfalso
      have hs := E.verify_sound sk _ _ hcase
      obtain ⟨_, hmeq⟩ := E.sign_inj _ _ _ _ hs
      have hmsg := utf8Encode_inj _ _ hmeq
      exact hne (constructMessage_to_inj signer.publicKey toAddr toAddr' amount
        (natToString now) (now + validForSeconds) hmsg).symm
  · intro deadline' hne
    refine verifySolanaSignature_false_of E _ _ _ hsig_decode hfrom_decode ?_
    show E.verify (utf8Encode (constructMessage signer.publicKey toAddr amount
        (natToString now) deadline'))
      (E.sign sk (utf8Encode (constructMessage signer.publicKey toAddr amount
        (natToString now) (now + validForSeconds)))) (E.pub sk) = false
    rcases hcase : E.verify (utf8Encode (constructMessage signer.publicKey toAddr
        amount (natToString now) deadline'))
      (E.sign sk (utf8Encode (constructMessage signer.publicKey toAddr amount
        (natToString now) (now + validForSeconds)))) (E.pub sk) with _ | _
    · rfl
    · exfalso
      have hs := E.verify_sound sk _ _ hcase
      obtain ⟨_, hmeq⟩ := E.sign_inj _ _ _ _ hs
      have hmsg := utf8Encode_inj _ _ hmeq
      exact hne (constructMessage_deadline_inj signer.publicKey toAddr amount
        (natToString now) (now + validForSeconds) deadline' hmsg).symm
  · intro hkey
    have hsig' : bs58decode
        (signSolanaPayment signer' toAddr amount validForSeconds now).signature =
        some (E.sign sk' (utf8Encode (constructMessage signer'.publicKey toAddr
          amount (natToString now) (now + validForSeconds)))) := by
      show bs58decode (bs58encode (signer'.sign (utf8Encode (constructMessage
        signer'.publicKey toAddr amount (natToString now)
        (now + validForSeconds))))) = _
      rw [hsign']
      exact bs58decode_encode _ (fun x hx => hsignBytes' _ x hx)
    have hfrom0 : bs58decode signer.publicKey = some (E.pub sk) := by
      rw [hpub]
      exact bs58decode_encode _ hpubBytes
    refine verifySolanaSignature_false_of E _ _ _ hsig' hfrom0 ?_
    show E.verify (utf8Encode (constructMessage signer.publicKey toAddr amount
        (natToString now) (now + validForSeconds)))
      (E.sign sk' (utf8Encode (constructMessage signer'.publicKey toAddr amount
        (natToString now) (now + validForSeconds)))) (E.pub sk) = false
    rcases hcase : E.verify (utf8Encode (constructMessage signer.publicKey toAddr
        amount (natToString now) (now + validForSeconds)))
      (E.sign sk' (utf8Encode (constructMessage signer'.publicKey toAddr amount
        (natToString now) (now + validForSeconds)))) (E.pub sk) with _ | _
    · rfl
    · exfalso
      have hs := E.verify_sound sk _ _ hcase
      obtain ⟨hk, _⟩ := E.sign_inj _ _ _ _ hs
      exact hkey hk

/-- A second concrete well-formed signer (key 2) for the witness. -/
def toySigner2 : SolanaSigner :=
  { publicKey := bs58encode (toyEd.pub 2), sign := fun m => toyEd.sign 2 m }

theorem toySigner2_wellFormed : SolanaSigner.wellFormed toyEd 2 toySigner2 :=
  ⟨rfl, fun m => rfl, natToBytes_lt 2, fun m => natToBytes_lt _⟩

/-- C4 witness: with the concrete scheme `toyEd`, a signed payload verifies
and an amount mutation makes verification fail. -/
theorem solana_sign_verify_spec_witness :
    verifySolanaSignature toyEd
      (signSolanaPayment toySigner "dest" "42" 300 1000) = true ∧
    verifySolanaSignature toyEd
      { signSolanaPayment toySigner "dest" "42" 300 1000 with amount := "43" } =
      false := by
  constructor
  · exact (solana_sign_verify_spec toyEd 1 2 toySigner toySigner2
      toySigner_wellFormed toySigner2_wellFormed "dest" "42" 300 1000).1
  · exact (solana_sign_verify_spec toyEd 1 2 toySigner toySigner2
      toySigner_wellFormed toySigner2_wellFormed "dest" "42" 300 1000).2.1 "43"
      (by decide)

/-- C1: the gate forwards to the downstream continuation only when a payment
header was present, decoded, matched a configured offer by canonical network,
verified valid, and settlement was disabled or succeeded; a headerless
request gets a 402 carrying every configured offer in the body and in the
base64 PAYMENT-REQUIRED header; an unmatched network gets the offers plus
the unmatched-network error; a settlement failure yields the settle-failed
402 error with no offer list. -/
theorem gate_handler_spec (entries : List ResolvedEntry)
    (decodeHeader : String → Option GatePayload)
    (verify : GatePayload → PaymentRequirement → Except String VerifyResponse)
    (settle : GatePayload → PaymentRequirement → Except String SettleResponse)
    (req : GateRequest) :
    (∀ hdr, x402Handler entries decodeHeader verify settle req =
        GateOutcome.forward hdr →
      ∃ raw payload matched vres,
        req.rawHeader = some raw ∧
        decodeHeader raw = some payload ∧
        entries.find? (fun e => caip2 e.network == payload.acceptedNetwork) =
          some matched ∧
        verify payload (buildRequirement req.url matched.payTo matched.amount
          matched.asset matched.network matched.description) = .ok vres ∧
        vres.isValid = true ∧
        (matched.settle = false ∨
          ∃ sres, settle payload (buildRequirement req.url matched.payTo
            matched.amount matched.asset matched.network matched.description) =
              .ok sres ∧ sres.success = true)) ∧
    (req.rawHeader = none →
      x402Handler entries decodeHeader verify settle req =
        GateOutcome.paymentRequired (buildRequirements req.url entries)
          (toBase64 (encodeRequirementsBody (buildRequirements req.url entries)))
          none) ∧
    (∀ raw payload, req.rawHeader = some raw →
      decodeHeader raw = some payload →
      entries.find? (fun e => caip2 e.network == payload.acceptedNetwork) = none →
      x402Handler entries decodeHeader verify settle req =
        GateOutcome.paymentRequired (buildRequirements req.url entries)
          (toBase64 (encodeRequirementsBody (buildRequirements req.url entries)))
          (some ("No payment option found for network \"" ++
            showOptString payload.acceptedNetwork ++ "\""))) ∧
    (∀ raw payload matched vres sres, req.rawHeader = some raw →
      decodeHeader raw = some payload →
      entries.find? (fun e => caip2 e.network == payload.acceptedNetwork) =
        some matched →
      verify payload (buildRequirement req.url matched.payTo matched.amount
        matched.asset matched.network matched.description) = .ok vres →
      vres.isValid = true →
      matched.settle = true →
      settle payload (buildRequirement req.url matched.payTo matched.amount
        matched.asset matched.network matched.description) = .ok sres →
      sres.success = false →
      x402Handler entries decodeHeader verify settle req =
        GateOutcome.settleFailed ("Payment settlement failed: " ++
          showOptString (match sres.error with
            | some e => some e
            | none => sres.errorReason))) := by
  refine ⟨?_, ?_, ?_, ?_⟩
  · intro hdr hout
    rcases hraw : req.rawHeader with _ | raw
    · simp only [x402Handler.eq_def, hraw, send402] at hout
      exact GateOutcome.noConfusion hout
    · rcases hdec : decodeHeader raw with _ | payload
      · simp only [x402Handler.eq_def, hraw, hdec, send402] at hout
        exact GateOutcome.noConfusion hout
      · rcases hfind : entries.find?
            (fun e => caip2 e.network == payload.acceptedNetwork) with _ | matched
        · simp only [x402Handler.eq_def, hraw, hdec, hfind, send402] at hout
          exact GateOutcome.noConfusion hout
        · simp only [x402Handler.eq_def, hraw, hdec, hfind] at hout
          rcases hver : verify payload (buildRequirement req.url matched.payTo
              matched.amount matched.asset matched.network matched.description)
            with msg | vres
          · simp only [hver] at hout
            exact GateOutcome.noConfusion hout
          · simp only [hver] at hout
            by_cases hval : vres.isValid = false
            · rw [if_pos hval] at hout
              simp only [send402] at hout
              exact GateOutcome.noConfusion hout
            · rw [if_neg hval] at hout
              have hvalT : vres.isValid = true := by
                rcases hb : vres.isValid with _ | _
                · exact absurd hb hval
                · rfl
              by_cases hset : matched.settle = true
              · rw [if_pos hset] at hout
                rcases hsettle : settle payload (buildRequirement req.url
                    matched.payTo matched.amount matched.asset matched.network
                    matched.description) with msg | sres
                · simp only [hsettle] at hout
                  exact GateOutcome.noConfusion hout
                · simp only [hsettle] at hout
                  by_cases hsucc : sres.success = false
                  · rw [if_pos hsucc] at hout
                    exact GateOutcome.noConfusion hout
                  · have hsuccT : sres.success = true := by
                      rcases hb : sres.success with _ | _
                      · exact absurd hb hsucc
                      · rfl
                    exact ⟨raw, payload, matched, vres, rfl, hdec, hfind, hver,
                      hvalT, Or.inr ⟨sres, hsettle, hsuccT⟩⟩
              · have hsetF : matched.settle = false := by
                  rcases hb : matched.settle with _ | _
                  · rfl
                  · exact absurd hb hset
                exact ⟨raw, payload, matched, vres, rfl, hdec, hfind, hver,
                  hvalT, Or.inl hsetF⟩
  · intro h
    simp only [x402Handler.eq_def, h, send402]
  · intro raw payload hraw hdec hfind
    simp only [x402Handler.eq_def, hraw, hdec, hfind, send402]
  · intro raw payload matched vres sres hraw hdec hfind hver hval hset hsettle hsucc
    simp only [x402Handler.eq_def, hraw, hdec, hfind, hver]
    rw [if_neg (fun hc => Bool.noConfusion (hval.symm.trans hc)), if_pos hset]
    simp only [hsettle]
    rw [if_pos hsucc]

/-- A configured offer for the gate witness. -/
def gateDemoEntry : ResolvedEntry :=
  { payTo := "0xPay", amount := "10000", network := "base-sepolia",
    asset := "0xAsset", description := none, settle := false }

/-- Decode oracle of the witness: every header decodes to a payload that
declares mainnet, which the single configured offer does not serve. -/
def gateDemoDecode : String → Option GatePayload :=
  fun _ => some { acceptedNetwork := some "eip155:1" }

def gateDemoVerify : GatePayload → PaymentRequirement → Except String VerifyResponse :=
  fun _ _ => .ok { isValid := true }

def gateDemoSettle : GatePayload → PaymentRequirement → Except String SettleResponse :=
  fun _ _ => .ok { success := true }

/-- C1 witness: a headerless request gets the full offer list, and a payload
declaring an unconfigured network gets the unmatched-network error. -/
theorem gate_handler_spec_witness :
    x402Handler [gateDemoEntry] gateDemoDecode gateDemoVerify gateDemoSettle
      { url := "/api" } =
      GateOutcome.paymentRequired (buildRequirements "/api" [gateDemoEntry])
        (toBase64 (encodeRequirementsBody (buildRequirements "/api" [gateDemoEntry])))
        none ∧
    x402Handler [gateDemoEntry] gateDemoDecode gateDemoVerify gateDemoSettle
      { url := "/api", xPaymentHeader := some "hdr" } =
      GateOutcome.paymentRequired (buildRequirements "/api" [gateDemoEntry])
        (toBase64 (encodeRequirementsBody (buildRequirements "/api" [gateDemoEntry])))
        (some ("No payment option found for network \"" ++
          showOptString (some "eip155:1") ++ "\"")) :=
  ⟨(gate_handler_spec [gateDemoEntry] gateDemoDecode gateDemoVerify gateDemoSettle
      { url := "/api" }).2.1 rfl,
   (gate_handler_spec [gateDemoEntry] gateDemoDecode gateDemoVerify gateDemoSettle
      { url := "/api", xPaymentHeader := some "hdr" }).2.2.1 "hdr"
      { acceptedNetwork := some "eip155:1" } rfl rfl (by decide)⟩

end X402


